import Mathlib

/-! WebGL Space Shooter: the game-state update loop of `script.js`.

A shallow embedding of the simulation part of `src/script.js`: the `game` object, the
`Asteroid` class, collision detection, the per-frame `update()` and the screen transitions.

Conventions of the embedding

* JavaScript numbers that hold coordinates, sizes and speeds are rationals (`ℚ`) and the
  frame functions compute on them exactly; counters (score, lives, level, hit points,
  timestamps) are integers. Where the outcome of a comparison depends on the rounding of
  double precision, in `checkCollision` and in the steps of `updatePlayer`, the function is
  given a second time with an explicit rounding (section "Double-precision arithmetic").
* `Math.floor(e)` is `⌊e⌋` on `ℚ`.
* A property that the program reads but that the object may not have (`undefined`) is an
  `Option`; an arithmetic comparison with an `undefined` operand is `false`, as in JavaScript
  (`undefined` converts to `NaN`).
* `Math.random()` and `Date.now()` are explicit inputs of the functions that call them.
* Rendering (`texture`, `color`, the DOM and WebGL calls) and audio are left out: they do not
  feed back into the game state.
-/

namespace SpaceShooter

/-! ## Data model -/

/-- The values taken by `game.currentScreen`. -/
inductive Screen where
  | start
  | game
  | pause
  | gameOver
  deriving DecidableEq, Repr

/-- What `checkCollision` reads of its arguments: centre and extent. -/
structure Rect where
  x : ℚ
  y : ℚ
  width : ℚ
  height : ℚ
  deriving DecidableEq

/-- The object `game.keys`. -/
structure Keys where
  left : Bool
  right : Bool
  space : Bool
  deriving DecidableEq, Repr

/-- The object `game.player`. -/
structure Player where
  x : ℚ
  y : ℚ
  width : ℚ
  height : ℚ
  speed : ℚ
  deriving DecidableEq

/-- The bullet object literal built by `fireBullet`. -/
structure Bullet where
  x : ℚ
  y : ℚ
  speedX : ℚ
  speedY : ℚ
  width : ℚ
  height : ℚ
  deriving DecidableEq

/-- The fields of `class Asteroid` (without `texture` and `color`). -/
structure Asteroid where
  x : ℚ
  y : ℚ
  width : ℚ
  height : ℚ
  hitPoints : Int
  initialHitPoints : Int
  speed : ℚ
  flashTimer : Int
  score : Int
  deriving DecidableEq

/-- The global `game` object. The last five properties are not part of the object literal:
`resetGame` creates `lastBonusLifeScore`, `asteroidSpawnRate` and `maxAsteroidsOnScreen`, and
nothing in the program assigns `bonusLifeThreshold` or `maxLives`. -/
structure Game where
  currentScreen : Screen
  isPaused : Bool
  player : Player
  bullets : List Bullet
  asteroids : List Asteroid
  score : Int
  highScore : Int
  lives : Int
  level : Int
  gameOver : Bool
  keys : Keys
  lastShot : Int
  shootDelay : Int
  scorePerAsteroid : Int
  levelScoreThreshold : Int
  lastBonusLifeScore : Option Int
  asteroidSpawnRate : Option ℚ
  maxAsteroidsOnScreen : Option Int
  bonusLifeThreshold : Option Int
  maxLives : Option Int
  deriving DecidableEq

/-- The object literal `const game = { ... }` (script.js:177-200); `stored` is the number read
from `localStorage` for `highScore` (0 when there is none). -/
def game (stored : Int) : Game :=
  { currentScreen := Screen.start
    isPaused := false
    player := { x := 0, y := -0.8, width := 0.16, height := 0.16, speed := 0.02 }
    bullets := []
    asteroids := []
    score := 0
    highScore := stored
    lives := 3
    level := 1
    gameOver := false
    keys := { left := false, right := false, space := false }
    lastShot := 0
    shootDelay := 250
    scorePerAsteroid := 10
    levelScoreThreshold := 500
    lastBonusLifeScore := none
    asteroidSpawnRate := none
    maxAsteroidsOnScreen := none
    bonusLifeThreshold := none
    maxLives := none }

/-- The bounding box of a bullet. -/
def Bullet.rect (b : Bullet) : Rect :=
  { x := b.x, y := b.y, width := b.width, height := b.height }

/-- The bounding box of an asteroid. -/
def Asteroid.rect (a : Asteroid) : Rect :=
  { x := a.x, y := a.y, width := a.width, height := a.height }

/-- The bounding box of the player. -/
def Player.rect (p : Player) : Rect :=
  { x := p.x, y := p.y, width := p.width, height := p.height }

/-! ## The Asteroid class -/

/-- The constructor `new Asteroid(x, y)` (script.js:541-555), run while `game.level = level`;
`rnd` is the value of `Math.random()`. -/
def Asteroid.new (level : Int) (x y rnd : ℚ) : Asteroid :=
  let hitPoints : Int := ⌊rnd * 5⌋ + 1
  let baseSpeed : ℚ := 0.004
  let levelSpeedMultiplier : ℚ := 1 + ((min level 20 : Int) : ℚ) * 0.1
  { x := x
    y := y
    width := 0.2
    height := 0.2
    hitPoints := hitPoints
    initialHitPoints := hitPoints
    speed := min (baseSpeed * levelSpeedMultiplier) 0.006
    flashTimer := 0
    score := hitPoints * 10 }

/-- The method `Asteroid.update()` (script.js:557-565): the asteroid after the call and the
returned flag. -/
def Asteroid.update (a : Asteroid) : Asteroid × Bool :=
  let y := a.y - a.speed
  let flashTimer := if a.flashTimer > 0 then a.flashTimer - 1 else a.flashTimer
  ({ a with y := y, flashTimer := flashTimer }, decide (y > -1))

/-- The method `Asteroid.hit()` (script.js:607-613): the asteroid after the call and the returned
flag. -/
def Asteroid.hit (a : Asteroid) : Asteroid × Bool :=
  let hitPoints := a.hitPoints - 1
  ({ a with hitPoints := hitPoints, flashTimer := 10 }, decide (hitPoints ≤ 0))

/-! ## Game functions -/

/-- The function `checkCollision(rect1, rect2)` (script.js:658-663). -/
def checkCollision (rect1 rect2 : Rect) : Bool :=
  !(decide (rect1.x + rect1.width / 2 < rect2.x - rect2.width / 2) ||
    decide (rect1.x - rect1.width / 2 > rect2.x + rect2.width / 2) ||
    decide (rect1.y + rect1.height / 2 < rect2.y - rect2.height / 2) ||
    decide (rect1.y - rect1.height / 2 > rect2.y + rect2.height / 2))

/-- The function `spawnAsteroid()` (script.js:617-640); `rndX` is the `Math.random()` of the
x coordinate and `rndHp` the one of the constructor. -/
def spawnAsteroid (g : Game) (rndX rndHp : ℚ) : Game :=
  if !g.gameOver then
    let currentAsteroids : Int := g.asteroids.length
    let below : Bool :=
      match g.maxAsteroidsOnScreen with
      | some m => decide (currentAsteroids < m + ⌊(g.level : ℚ) / 2⌋)
      | none => false
    if below then
      let x : ℚ := rndX * 1.8 - 0.9
      let minSpacing : ℚ := 0.3
      let canSpawn : Bool := !(g.asteroids.any fun asteroid => decide (|asteroid.y - 1.1| < minSpacing))
      if canSpawn then
        { g with asteroids := g.asteroids ++ [Asteroid.new g.level x 1.1 rndHp] }
      else g
    else g
  else g

/-- The function `fireBullet()` (script.js:642-656) with its default `angle = 0`, so that
`speedX = sin 0 * 0.02 = 0` and `speedY = cos 0 * 0.02 = 0.02`; `now` is `Date.now()`. -/
def fireBullet (g : Game) (now : Int) : Game :=
  if !g.gameOver && decide (now - g.lastShot ≥ g.shootDelay) then
    let bullet : Bullet :=
      { x := g.player.x
        y := g.player.y + g.player.height / 2
        speedX := 0
        speedY := 0.02
        width := 0.02
        height := 0.04 }
    { g with bullets := g.bullets ++ [bullet], lastShot := now }
  else g

/-- The function `resetGame()` (script.js:665-683). -/
def resetGame (g : Game) : Game :=
  { g with
    player := { g.player with x := 0, y := -0.8 }
    bullets := []
    asteroids := []
    score := 0
    lives := 3
    level := 1
    gameOver := false
    lastBonusLifeScore := some 0
    asteroidSpawnRate := some 0.02
    maxAsteroidsOnScreen := some 5 }

/-! ## Screens -/

/-- The function `showStartScreen()` (script.js:203-211). -/
def showStartScreen (g : Game) : Game :=
  { g with currentScreen := Screen.start, isPaused := false }

/-- The function `startGame()` (script.js:219-227). -/
def startGame (g : Game) : Game :=
  resetGame { g with currentScreen := Screen.game, isPaused := false }

/-- The function `pauseGame()` (script.js:240-245). -/
def pauseGame (g : Game) : Game :=
  { g with isPaused := true, currentScreen := Screen.pause }

/-- The function `resumeGame()` (script.js:247-253). -/
def resumeGame (g : Game) : Game :=
  { g with isPaused := false, currentScreen := Screen.game }

/-- The function `togglePauseMenu()` (script.js:230-238). -/
def togglePauseMenu (g : Game) : Game :=
  if g.currentScreen = Screen.game then
    if g.isPaused then resumeGame g else pauseGame g
  else g

/-- The function `confirmMainMenu()` (script.js:255-260); `confirmed` is the answer given to the
`confirm(...)` dialog. -/
def confirmMainMenu (g : Game) (confirmed : Bool) : Game :=
  if confirmed then showStartScreen (resumeGame g) else g

/-- The click handler of the `restartFromPause` button (script.js:803-809); `confirmed` is the
answer given to the `confirm(...)` dialog. -/
def restartFromPause (g : Game) (confirmed : Bool) : Game :=
  if confirmed then resetGame (resumeGame g) else g

/-- The click handler of the `restartButton` of the game-over screen (script.js:906-911). -/
def restartButton (g : Game) : Game :=
  resetGame (resumeGame g)

/-- The function `showGameOverScreen()` (script.js:263-269). -/
def showGameOverScreen (g : Game) : Game :=
  { g with currentScreen := Screen.gameOver }

/-- The function `gameOver()` (script.js:764-772). -/
def gameOver (g : Game) : Game :=
  let g := { g with gameOver := true }
  let g := if g.score > g.highScore then { g with highScore := g.score } else g
  showGameOverScreen g

/-! ## Update functions -/

/-- The function `updatePlayer()` (script.js:686-697); `now` is `Date.now()`. -/
def updatePlayer (g : Game) (now : Int) : Game :=
  let g :=
    if g.keys.left && decide (g.player.x > -0.9) then
      { g with player := { g.player with x := g.player.x - g.player.speed } }
    else g
  let g :=
    if g.keys.right && decide (g.player.x < 0.9) then
      { g with player := { g.player with x := g.player.x + g.player.speed } }
    else g
  if g.keys.space then fireBullet g now else g

/-- The function `updateBullets()` (script.js:699-705). -/
def updateBullets (g : Game) : Game :=
  { g with
    bullets :=
      (g.bullets.map fun bullet =>
        { bullet with x := bullet.x + bullet.speedX, y := bullet.y + bullet.speedY }).filter
        fun bullet => decide (bullet.y < 1) }

/-- The first statement of `updateAsteroids()` (script.js:709): every asteroid is updated and
those whose `update()` returns false are dropped. -/
def advanceAsteroids (g : Game) : Game :=
  { g with
    asteroids := g.asteroids.filterMap fun asteroid =>
      if asteroid.update.2 then some asteroid.update.1 else none }

/-- The constant `scoreIncrease` computed when a hit destroys `asteroid` (script.js:719-721);
`asteroid.initialHitPoints || 1` is 1 when `initialHitPoints` is 0. -/
def scoreIncrease (g : Game) (asteroid : Asteroid) : Int :=
  g.scorePerAsteroid *
    (if asteroid.initialHitPoints = 0 then 1 else asteroid.initialHitPoints) *
    min g.level 5

/-- The condition of the bonus-life check (script.js:727-728):
`game.score >= game.lastBonusLifeScore + game.bonusLifeThreshold && game.lives < game.maxLives`. -/
def bonusLifeDue (g : Game) : Bool :=
  match g.lastBonusLifeScore, g.bonusLifeThreshold, g.maxLives with
  | some last, some threshold, some maxLives =>
    decide (g.score ≥ last + threshold) && decide (g.lives < maxLives)
  | _, _, _ => false

/-- The body run when a hit destroys `asteroid` (script.js:719-732): the score increase and the
bonus-life check. -/
def scoreDestroyed (g : Game) (asteroid : Asteroid) : Game :=
  let g := { g with score := g.score + scoreIncrease g asteroid }
  if bonusLifeDue g then { g with lives := g.lives + 1, lastBonusLifeScore := some g.score }
  else g

/-- The inner `game.asteroids.filter(...)` of the bullet pass (script.js:714-737), run over the
asteroids in collection order for one bullet: the asteroids kept, the final `bulletHit` flag and
the game object as the callback leaves it. -/
def filterAsteroids (bullet : Bullet) : List Asteroid → Bool → Game → List Asteroid × Bool × Game
  | [], bulletHit, g => ([], bulletHit, g)
  | asteroid :: rest, bulletHit, g =>
    if !bulletHit && checkCollision bullet.rect asteroid.rect then
      if asteroid.hit.2 then
        filterAsteroids bullet rest true (scoreDestroyed g asteroid.hit.1)
      else
        let r := filterAsteroids bullet rest true g
        (asteroid.hit.1 :: r.1, r.2)
    else
      let r := filterAsteroids bullet rest bulletHit g
      (asteroid :: r.1, r.2)

/-- The callback of the outer `game.bullets.filter(...)` (script.js:712-739) for one bullet:
whether the bullet was hit, and the game object with `game.asteroids` reassigned. -/
def bulletCallback (g : Game) (bullet : Bullet) : Bool × Game :=
  let r := filterAsteroids bullet g.asteroids false g
  (r.2.1, { r.2.2 with asteroids := r.1 })

/-- The outer filter over the bullets in collection order: the bullets kept and the game object
after all callbacks. -/
def filterBullets : List Bullet → Game → List Bullet × Game
  | [], g => ([], g)
  | bullet :: rest, g =>
    let r := bulletCallback g bullet
    let t := filterBullets rest r.2
    (if r.1 then t.1 else bullet :: t.1, t.2)

/-- The bullet/asteroid pass of `updateAsteroids()` (script.js:712-739). -/
def bulletAsteroidPass (g : Game) : Game :=
  let r := filterBullets g.bullets g
  { r.2 with bullets := r.1 }

/-- The callback of `game.asteroids.forEach(...)` in the player pass (script.js:745-758). -/
def playerCallback (g : Game) (asteroid : Asteroid) : Game :=
  if checkCollision g.player.rect asteroid.rect then
    let g := { g with lives := g.lives - 1 }
    if g.lives ≤ 0 then gameOver g
    else { g with player := { g.player with x := 0, y := -0.8 } }
  else g

/-- The asteroid/player pass of `updateAsteroids()` (script.js:743-760). -/
def playerPass (g : Game) : Game :=
  if !g.gameOver then g.asteroids.foldl playerCallback g else g

/-- The function `updateAsteroids()` (script.js:708-761). -/
def updateAsteroids (g : Game) : Game :=
  playerPass (bulletAsteroidPass (advanceAsteroids g))

/-- The function `checkLevelProgression()` (script.js:818-830). -/
def checkLevelProgression (g : Game) : Game :=
  let oldLevel := g.level
  let newLevel : Int := ⌊(g.score : ℚ) / (g.levelScoreThreshold : ℚ)⌋ + 1
  if newLevel > oldLevel then
    let level := min newLevel 50
    { g with
      level := level
      maxAsteroidsOnScreen := some (min (5 + ⌊(level : ℚ) / 3⌋) 12)
      asteroidSpawnRate := some (min (0.02 + (level : ℚ) * 0.002) 0.08) }
  else g

/-- The values that one call of `update()` takes from outside the game object. -/
structure FrameInput where
  now : Int
  rndSpawn : ℚ
  rndX : ℚ
  rndHp : ℚ

/-- Every `Math.random()` of the frame lies in `[0, 1)`. -/
def FrameInput.valid (i : FrameInput) : Prop :=
  (0 ≤ i.rndSpawn ∧ i.rndSpawn < 1) ∧ (0 ≤ i.rndX ∧ i.rndX < 1) ∧ (0 ≤ i.rndHp ∧ i.rndHp < 1)

instance (i : FrameInput) : Decidable i.valid := by
  unfold FrameInput.valid
  infer_instance

/-- The function `update()` (script.js:833-844). -/
def update (g : Game) (i : FrameInput) : Game :=
  if !g.gameOver then
    let g := updatePlayer g i.now
    let g := updateBullets g
    let g := updateAsteroids g
    let g := checkLevelProgression g
    let spawn : Bool :=
      match g.asteroidSpawnRate with
      | some rate => decide (i.rndSpawn < rate)
      | none => false
    if spawn then spawnAsteroid g i.rndX i.rndHp else g
  else g

/-- One iteration of `gameLoop()` (script.js:861-868): `update()` runs only on the game screen
while not paused. -/
def gameLoop (g : Game) (i : FrameInput) : Game :=
  if g.currentScreen = Screen.game && !g.isPaused then update g i else g

/-- The properties of `game` that no statement of the program assigns: a state has the
program's settings when they are those of the object literal. -/
def Game.hasSettings (g : Game) : Prop :=
  g.shootDelay = 250 ∧ g.scorePerAsteroid = 10 ∧ g.levelScoreThreshold = 500 ∧
    g.bonusLifeThreshold = none ∧ g.maxLives = none

instance (g : Game) : Decidable g.hasSettings := by
  unfold Game.hasSettings
  infer_instance

/-- The states of a session: `resetGame()` on a state with the program's settings, then any
number of `update()` frames; between two frames the key handlers may set `game.keys` to any
value. -/
inductive Session : Game → Prop where
  | reset (g : Game) : g.hasSettings → Session (resetGame g)
  | frame (g : Game) (keys : Keys) (i : FrameInput) :
      Session g → i.valid → Session (update { g with keys := keys } i)

/-! ## Double-precision arithmetic

JavaScript numbers are IEEE 754 binary64 values and every arithmetic operation rounds its exact
result to the nearest one, ties to even. The definitions above compute in exact rationals; the
definitions of this section repeat `checkCollision`, `fireBullet` and `updatePlayer` with the
rounding `fl` applied to every decimal literal and to the result of every operation. With
`fl = id` they are the definitions above, with `fl = binary64` they compute what the program
computes. -/

/-- Rounding of a rational to the nearest integer, ties to the even one. -/
def roundHalfEven (q : ℚ) : Int :=
  if q - ⌊q⌋ < 1 / 2 then ⌊q⌋
  else if 1 / 2 < q - ⌊q⌋ then ⌊q⌋ + 1
  else if ⌊q⌋ % 2 = 0 then ⌊q⌋ else ⌊q⌋ + 1

/-- The binary exponent of a positive rational as binary64 stores it: `floor(log2 q)`, and
-1022 for the subnormal range. -/
def binade (q : ℚ) : Int := max (Int.log 2 q) (-1022)

/-- Rounding of a non-negative rational to a significand of 53 bits in its binade. -/
def roundMagnitude (q : ℚ) : ℚ :=
  (roundHalfEven (q / (2 : ℚ) ^ (binade q - 52)) : ℚ) * (2 : ℚ) ^ (binade q - 52)

/-- Rounding to the nearest binary64 value, ties to even, of a rational below the overflow
threshold `2 ^ 1024`: sign and rounded magnitude. -/
def binary64 (q : ℚ) : ℚ :=
  if q < 0 then -roundMagnitude (-q) else roundMagnitude q

/-- The function `checkCollision(rect1, rect2)` (script.js:658-663) with every operation
rounded by `fl`. -/
def checkCollisionFl (fl : ℚ → ℚ) (rect1 rect2 : Rect) : Bool :=
  !(decide (fl (rect1.x + fl (rect1.width / 2)) < fl (rect2.x - fl (rect2.width / 2))) ||
    decide (fl (rect1.x - fl (rect1.width / 2)) > fl (rect2.x + fl (rect2.width / 2))) ||
    decide (fl (rect1.y + fl (rect1.height / 2)) < fl (rect2.y - fl (rect2.height / 2))) ||
    decide (fl (rect1.y - fl (rect1.height / 2)) > fl (rect2.y + fl (rect2.height / 2))))

/-- The function `fireBullet()` (script.js:642-656) with its default `angle = 0`, every literal
and operation rounded by `fl`: `Math.sin(0) * speed` is 0 and `Math.cos(0) * speed` is `speed`
without rounding. -/
def fireBulletFl (fl : ℚ → ℚ) (g : Game) (now : Int) : Game :=
  if !g.gameOver && decide (now - g.lastShot ≥ g.shootDelay) then
    let bullet : Bullet :=
      { x := g.player.x
        y := fl (g.player.y + fl (g.player.height / 2))
        speedX := 0
        speedY := fl 0.02
        width := fl 0.02
        height := fl 0.04 }
    { g with bullets := g.bullets ++ [bullet], lastShot := now }
  else g

/-- The function `updatePlayer()` (script.js:686-697) with every literal and operation rounded
by `fl`. -/
def updatePlayerFl (fl : ℚ → ℚ) (g : Game) (now : Int) : Game :=
  let g :=
    if g.keys.left && decide (g.player.x > -(fl 0.9)) then
      { g with player := { g.player with x := fl (g.player.x - g.player.speed) } }
    else g
  let g :=
    if g.keys.right && decide (g.player.x < fl 0.9) then
      { g with player := { g.player with x := fl (g.player.x + g.player.speed) } }
    else g
  if g.keys.space then fireBulletFl fl g now else g

/-! ## Invariants of a session -/

/-- The hit points of an asteroid are between 1 and the initial ones, which are at most 5. -/
def Asteroid.wf (a : Asteroid) : Prop :=
  1 ≤ a.hitPoints ∧ a.hitPoints ≤ a.initialHitPoints ∧ a.initialHitPoints ≤ 5

instance (a : Asteroid) : Decidable a.wf := by
  unfold Asteroid.wf
  infer_instance

/-- What holds of the game object throughout one frame that started at level `L`, score `S`
and lives `V`: the settings are the program's, the level is still `L`, the score is at least
`S` and the lives at most `V`. -/
def Game.stable (L S V : Int) (g : Game) : Prop :=
  g.hasSettings ∧ g.level = L ∧ S ≤ g.score ∧ g.lives ≤ V

/-- The invariant of a session between two frames. -/
def Game.inv (g : Game) : Prop :=
  g.hasSettings ∧ 0 ≤ g.score ∧ g.level = min (⌊(g.score : ℚ) / 500⌋ + 1) 50 ∧ g.lives ≤ 3 ∧
    ∀ a ∈ g.asteroids, a.wf

/-! ## Runs of frames -/

/-- Whether the frame `update()` runs on `g` with input `i` fires a bullet: the game is not
over and `updatePlayer` leaves one bullet more in the collection. -/
def firesIn (g : Game) (i : FrameInput) : Bool :=
  !g.gameOver && decide ((updatePlayer g i.now).bullets.length = g.bullets.length + 1)

/-- The timestamps, in frame order, of the frames of a run that fire a bullet; before each
frame the key handlers set `game.keys` to the keys given with the frame. -/
def shotTimes (g : Game) : List (Keys × FrameInput) → List Int
  | [] => []
  | (keys, i) :: rest =>
    (if firesIn { g with keys := keys } i then [i.now] else []) ++
      shotTimes (update { g with keys := keys } i) rest

/-! ## States and frames used as examples -/

/-- An asteroid of the given position and hit points as the constructor builds it at level 1. -/
def asteroidAt (x y : ℚ) (hitPoints initialHitPoints : Int) : Asteroid :=
  { x := x, y := y, width := 0.2, height := 0.2, hitPoints := hitPoints,
    initialHitPoints := initialHitPoints, speed := 0.0044, flashTimer := 0,
    score := initialHitPoints * 10 }

/-- A bullet as `fireBullet` builds it, at the given position. -/
def bulletAt (x y : ℚ) : Bullet :=
  { x := x, y := y, speedX := 0, speedY := 0.02, width := 0.02, height := 0.04 }

/-- A frame in which no asteroid is spawned. -/
def quietFrame : FrameInput := { now := 1000, rndSpawn := 0.5, rndX := 0.5, rndHp := 0.5 }

/-- A frame in which an asteroid is spawned. -/
def spawnFrame : FrameInput := { now := 1000, rndSpawn := 0.01, rndX := 0.5, rndHp := 0.5 }

/-- The state after the first frame of a session, with fire held and an asteroid spawned. -/
def firstFrame : Game :=
  update { resetGame (game 0) with keys := { left := false, right := false, space := true } }
    spawnFrame

/-- One life left, the player moving right into two asteroids one above the other. -/
def twoAsteroidState : Game :=
  { resetGame (game 0) with
    lives := 1
    player := { x := -0.3, y := -0.8, width := 0.16, height := 0.16, speed := 0.02 }
    keys := { left := false, right := true, space := false }
    asteroids := [asteroidAt (-0.1) (-0.65) 1 1, asteroidAt (-0.1) (-0.96) 2 2] }

/-- One bullet over two asteroids: the first in collection order has 3 hit points, the
second 1. -/
def shieldedState : Game :=
  { resetGame (game 0) with
    bullets := [bulletAt 0 0]
    asteroids := [asteroidAt 0 0 3 3, asteroidAt 0 0 1 1] }

/-- Score 0, level 1, one bullet over one asteroid that has 1 hit point. -/
def singleHitState : Game :=
  { resetGame (game 0) with
    bullets := [bulletAt 0 0]
    asteroids := [asteroidAt 0 0 1 1] }

/-- Level 2 with five asteroids on screen, all far below the spawn row. -/
def levelTwoState : Game :=
  { resetGame (game 0) with
    score := 500
    level := 2
    asteroids := List.replicate 5 (asteroidAt 0 0 1 1) }

/-- Two lives left, score 990 at level 2, one bullet over an asteroid created with 5 hit
points that has 1 left. -/
def lowLivesState : Game :=
  { resetGame (game 0) with
    lives := 2
    score := 990
    level := 2
    bullets := [bulletAt 0 0]
    asteroids := [asteroidAt 0 0 1 5] }

/-- The fire key held and nothing else. -/
def fireHeld : Keys := { left := false, right := false, space := true }

/-- Four frames 100 ms apart, from 1000 ms, with the fire key held and no spawn. -/
def fireRun : List (Keys × FrameInput) :=
  [(fireHeld, { quietFrame with now := 1000 }), (fireHeld, { quietFrame with now := 1100 }),
    (fireHeld, { quietFrame with now := 1200 }), (fireHeld, { quietFrame with now := 1300 })]

/-- The left key held and nothing else. -/
def leftHeld : Keys := { left := true, right := false, space := false }

/-- A fresh session in double precision with the left key held: the player of the `game`
literal, its decimal literals rounded to binary64. -/
def leftStart : Game :=
  { resetGame (game 0) with
    keys := leftHeld
    player :=
      { x := 0, y := -(binary64 0.8), width := binary64 0.16, height := binary64 0.16,
        speed := binary64 0.02 } }

/-- The state after `n` frames of `updatePlayer()` in double precision from `leftStart`. -/
def leftSteps (n : Nat) : Game :=
  (fun g => updatePlayerFl binary64 g 0)^[n] leftStart

/-- The player of the `game` literal moved to `x = -0.28`, as a rectangle of doubles. -/
def nearPlayer : Rect :=
  { x := -(binary64 0.28), y := -(binary64 0.8), width := binary64 0.16,
    height := binary64 0.16 }

/-- An asteroid at `(-0.1, -0.7)`, as a rectangle of doubles. -/
def nearAsteroid : Rect :=
  { x := -(binary64 0.1), y := -(binary64 0.7), width := binary64 0.2, height := binary64 0.2 }

/-- The unit square centred at `(x, 0)`. -/
def unitSquareAt (x : ℚ) : Rect := { x := x, y := 0, width := 1, height := 1 }

/-- A fresh session on the game screen, as `startGame` leaves it. -/
def playingState : Game := startGame (game 0)

/-- A paused session with score 120 and high score 0. -/
def pausedState : Game :=
  pauseGame { resetGame (game 0) with currentScreen := Screen.game, score := 120 }

/-! ## Theorems -/
/-! ### The inner filter of the bullet pass -/

/-- Once the flag is set the inner filter keeps every asteroid and changes nothing. -/
theorem filterAsteroids_hit (b : Bullet) (l : List Asteroid) (g : Game) :
    filterAsteroids b l true g = (l, true, g) := by
  induction l with
  | nil => rfl
  | cons a rest ih => simp [filterAsteroids, ih]

/-- A bullet that overlaps no asteroid of the list leaves the list, the flag and the game
object as they are. -/
theorem filterAsteroids_miss (b : Bullet) (l : List Asteroid) (g : Game)
    (h : ∀ a ∈ l, checkCollision b.rect a.rect = false) :
    filterAsteroids b l false g = (l, false, g) := by
  induction l with
  | nil => rfl
  | cons a rest ih =>
    have ha : checkCollision b.rect a.rect = false := h a (List.mem_cons_self a rest)
    have hr : ∀ x ∈ rest, checkCollision b.rect x.rect = false :=
      fun x hx => h x (List.mem_cons_of_mem a hx)
    simp [filterAsteroids, ha, ih hr]

/-- The first overlapped asteroid is the one hit: it is dropped when the hit destroys it and
kept, as `hit()` leaves it, otherwise; every other asteroid stays as it is. -/
theorem filterAsteroids_first (b : Bullet) (l1 l2 : List Asteroid) (a : Asteroid) (g : Game)
    (h1 : ∀ x ∈ l1, checkCollision b.rect x.rect = false)
    (ha : checkCollision b.rect a.rect = true) :
    filterAsteroids b (l1 ++ a :: l2) false g =
      if a.hit.2 then (l1 ++ l2, true, scoreDestroyed g a.hit.1)
      else (l1 ++ a.hit.1 :: l2, true, g) := by
  induction l1 with
  | nil =>
    by_cases hd : a.hit.2 = true
    · simp [filterAsteroids, ha, hd, filterAsteroids_hit]
    · simp [filterAsteroids, ha, hd, filterAsteroids_hit]
  | cons x rest ih =>
    have hx : checkCollision b.rect x.rect = false := h1 x (List.mem_cons_self x rest)
    have hr : ∀ y ∈ rest, checkCollision b.rect y.rect = false :=
      fun y hy => h1 y (List.mem_cons_of_mem x hy)
    have := ih hr
    by_cases hd : a.hit.2 = true
    · simp [filterAsteroids, hx, hd] at this ⊢
      simp [this]
    · simp [filterAsteroids, hx, hd] at this ⊢
      simp [this]

/-- Either a list has no asteroid overlapping the bullet or it splits at the first one. -/
theorem first_overlap_split (b : Bullet) (l : List Asteroid) :
    (∀ a ∈ l, checkCollision b.rect a.rect = false) ∨
      ∃ l1 a l2, l = l1 ++ a :: l2 ∧ (∀ x ∈ l1, checkCollision b.rect x.rect = false) ∧
        checkCollision b.rect a.rect = true := by
  induction l with
  | nil => left; simp
  | cons x rest ih =>
    by_cases hx : checkCollision b.rect x.rect = true
    · right; exact ⟨[], x, rest, rfl, by simp, hx⟩
    · rcases ih with h | ⟨l1, a, l2, e, h1, ha⟩
      · left
        intro a ha
        rcases List.mem_cons.mp ha with rfl | h'
        · simpa using hx
        · exact h a h'
      · right
        refine ⟨x :: l1, a, l2, by simp [e], ?_, ha⟩
        intro y hy
        rcases List.mem_cons.mp hy with rfl | h'
        · simpa using hx
        · exact h1 y h'

theorem bulletCallback_miss (g : Game) (b : Bullet)
    (h : ∀ a ∈ g.asteroids, checkCollision b.rect a.rect = false) :
    bulletCallback g b = (false, g) := by
  simp [bulletCallback, filterAsteroids_miss b g.asteroids g h]

theorem bulletCallback_first (g : Game) (b : Bullet) (l1 l2 : List Asteroid) (a : Asteroid)
    (hs : g.asteroids = l1 ++ a :: l2)
    (h1 : ∀ x ∈ l1, checkCollision b.rect x.rect = false)
    (ha : checkCollision b.rect a.rect = true) :
    bulletCallback g b =
      if a.hit.2 then (true, { scoreDestroyed g a.hit.1 with asteroids := l1 ++ l2 })
      else (true, { g with asteroids := l1 ++ a.hit.1 :: l2 }) := by
  simp only [bulletCallback, hs, filterAsteroids_first b l1 l2 a g h1 ha]
  split_ifs <;> rfl

theorem filterBullets_miss (bs : List Bullet) (g : Game)
    (h : ∀ b ∈ bs, ∀ a ∈ g.asteroids, checkCollision b.rect a.rect = false) :
    filterBullets bs g = (bs, g) := by
  induction bs with
  | nil => rfl
  | cons b rest ih =>
    have hb := bulletCallback_miss g b (h b (List.mem_cons_self b rest))
    have hr := ih fun x hx => h x (List.mem_cons_of_mem b hx)
    simp [filterBullets, hb, hr]

theorem filterBullets_cons (b : Bullet) (rest : List Bullet) (g : Game) :
    filterBullets (b :: rest) g =
      (if (bulletCallback g b).1 then (filterBullets rest (bulletCallback g b).2).1
        else b :: (filterBullets rest (bulletCallback g b).2).1,
        (filterBullets rest (bulletCallback g b).2).2) := rfl

theorem filterBullets_append (bs1 bs2 : List Bullet) :
    ∀ g : Game, filterBullets (bs1 ++ bs2) g =
      ((filterBullets bs1 g).1 ++ (filterBullets bs2 (filterBullets bs1 g).2).1,
        (filterBullets bs2 (filterBullets bs1 g).2).2) := by
  induction bs1 with
  | nil => intro g; rfl
  | cons b rest ih =>
    intro g
    rw [List.cons_append, filterBullets_cons, filterBullets_cons, ih]
    split_ifs <;> simp

theorem scoreDestroyed_score (g : Game) (a : Asteroid) :
    (scoreDestroyed g a).score = g.score + scoreIncrease g a ∧
    (scoreDestroyed g a).asteroids = g.asteroids ∧ (scoreDestroyed g a).bullets = g.bullets ∧
    (scoreDestroyed g a).level = g.level ∧
    (scoreDestroyed g a).scorePerAsteroid = g.scorePerAsteroid := by
  unfold scoreDestroyed
  simp only []
  split_ifs <;> simp

/-! ### What a frame preserves -/

theorem updatePlayer_keeps (g : Game) (now : Int) :
    (updatePlayer g now).hasSettings = g.hasSettings ∧ (updatePlayer g now).level = g.level ∧
      (updatePlayer g now).score = g.score ∧ (updatePlayer g now).lives = g.lives ∧
      (updatePlayer g now).asteroids = g.asteroids ∧
      (updatePlayer g now).gameOver = g.gameOver := by
  unfold updatePlayer fireBullet
  simp only []
  split_ifs <;> simp [Game.hasSettings]

theorem scoreDestroyed_stable (L S V : Int) (g : Game) (a : Asteroid) (hL : 0 ≤ L)
    (ha : 0 ≤ a.initialHitPoints) (h : g.stable L S V) : (scoreDestroyed g a).stable L S V := by
  obtain ⟨⟨h1, h2, h3, h4, h5⟩, hl, hs, hv⟩ := h
  have hinc : 0 ≤ scoreIncrease g a := by
    unfold scoreIncrease
    rw [h2, hl]
    have : 0 ≤ (if a.initialHitPoints = 0 then 1 else a.initialHitPoints) := by
      split_ifs <;> omega
    have h5 : 0 ≤ min L 5 := le_min hL (by norm_num)
    positivity
  have hb : scoreDestroyed g a = { g with score := g.score + scoreIncrease g a } := by
    cases hlb : g.lastBonusLifeScore <;> simp [scoreDestroyed, bonusLifeDue, h4, h5, hlb]
  rw [hb]
  exact ⟨⟨h1, h2, h3, h4, h5⟩, hl, by simp only []; linarith, hv⟩

theorem hit_wf (a : Asteroid) (h : a.wf) (hd : a.hit.2 = false) : a.hit.1.wf := by
  obtain ⟨h1, h2, h3⟩ := h
  simp only [Asteroid.hit, decide_eq_false_iff_not, not_le] at hd
  simp only [Asteroid.wf, Asteroid.hit]
  omega

theorem filterAsteroids_stable (b : Bullet) (L S V : Int) (hL : 0 ≤ L) (l : List Asteroid) :
    ∀ (hit : Bool) (g : Game), (∀ a ∈ l, a.wf) → g.stable L S V →
      (∀ a ∈ (filterAsteroids b l hit g).1, a.wf) ∧ (filterAsteroids b l hit g).2.2.stable L S V := by
  induction l with
  | nil => intro hit g _ hg; simpa [filterAsteroids] using hg
  | cons a rest ih =>
    intro hit g hwf hg
    have ha : a.wf := hwf a (List.mem_cons_self a rest)
    have hr : ∀ x ∈ rest, x.wf := fun x hx => hwf x (List.mem_cons_of_mem a hx)
    simp only [filterAsteroids]
    split_ifs with hc hd
    · have hi : 0 ≤ a.hit.1.initialHitPoints := by
        have := ha.1; have := ha.2.1; simp only [Asteroid.hit]; omega
      exact ih true _ hr (scoreDestroyed_stable L S V g a.hit.1 hL hi hg)
    · have := ih true g hr hg
      refine ⟨?_, this.2⟩
      intro x hx
      rcases List.mem_cons.mp hx with rfl | hx'
      · exact hit_wf a ha (by simpa using hd)
      · exact this.1 x hx'
    · have := ih hit g hr hg
      refine ⟨?_, this.2⟩
      intro x hx
      rcases List.mem_cons.mp hx with rfl | hx'
      · exact ha
      · exact this.1 x hx'

theorem filterBullets_stable (L S V : Int) (hL : 0 ≤ L) (bs : List Bullet) :
    ∀ g : Game, (∀ a ∈ g.asteroids, a.wf) → g.stable L S V →
      (∀ a ∈ (filterBullets bs g).2.asteroids, a.wf) ∧ (filterBullets bs g).2.stable L S V := by
  induction bs with
  | nil => intro g hwf hg; exact ⟨hwf, hg⟩
  | cons b rest ih =>
    intro g hwf hg
    have h := filterAsteroids_stable b L S V hL g.asteroids false g hwf hg
    simp only [filterBullets]
    apply ih
    · simpa [bulletCallback] using h.1
    · simpa [bulletCallback, Game.stable, Game.hasSettings] using h.2

theorem bulletAsteroidPass_stable (L S V : Int) (hL : 0 ≤ L) (g : Game)
    (hwf : ∀ a ∈ g.asteroids, a.wf) (hg : g.stable L S V) :
    (∀ a ∈ (bulletAsteroidPass g).asteroids, a.wf) ∧ (bulletAsteroidPass g).stable L S V := by
  have h := filterBullets_stable L S V hL g.bullets g hwf hg
  simpa [bulletAsteroidPass, Game.stable, Game.hasSettings] using h

theorem playerCallback_stable (L S V : Int) (g : Game) (a : Asteroid) (hg : g.stable L S V) :
    (playerCallback g a).stable L S V ∧ (playerCallback g a).asteroids = g.asteroids := by
  obtain ⟨⟨h1, h2, h3, h4, h5⟩, hl, hs, hv⟩ := hg
  simp only [playerCallback, gameOver, showGameOverScreen]
  split_ifs <;> simp [Game.stable, Game.hasSettings, *] <;> omega

theorem foldl_playerCallback_stable (L S V : Int) (l : List Asteroid) :
    ∀ g : Game, g.stable L S V →
      (l.foldl playerCallback g).stable L S V ∧ (l.foldl playerCallback g).asteroids = g.asteroids := by
  induction l with
  | nil => intro g hg; exact ⟨hg, rfl⟩
  | cons a rest ih =>
    intro g hg
    have h := playerCallback_stable L S V g a hg
    have h2 := ih _ h.1
    exact ⟨h2.1, h2.2.trans h.2⟩

theorem playerPass_stable (L S V : Int) (g : Game) (hg : g.stable L S V) :
    (playerPass g).stable L S V ∧ (playerPass g).asteroids = g.asteroids := by
  simp only [playerPass]
  split_ifs
  · exact foldl_playerCallback_stable L S V g.asteroids g hg
  · exact ⟨hg, rfl⟩

theorem advanceAsteroids_wf (g : Game) (hwf : ∀ a ∈ g.asteroids, a.wf) :
    ∀ a ∈ (advanceAsteroids g).asteroids, a.wf := by
  intro a ha
  simp only [advanceAsteroids, List.mem_filterMap] at ha
  obtain ⟨x, hx, hax⟩ := ha
  split_ifs at hax
  cases hax
  exact hwf x hx

theorem new_wf (level : Int) (x y rnd : ℚ) (h0 : 0 ≤ rnd) (h1 : rnd < 1) :
    (Asteroid.new level x y rnd).wf := by
  have hf0 : 0 ≤ ⌊rnd * 5⌋ := Int.floor_nonneg.mpr (by linarith)
  have hf5 : ⌊rnd * 5⌋ < 5 := Int.floor_lt.mpr (by push_cast; linarith)
  simp only [Asteroid.wf, Asteroid.new]
  omega

theorem spawnAsteroid_keeps (g : Game) (rndX rndHp : ℚ) :
    (spawnAsteroid g rndX rndHp).hasSettings = g.hasSettings ∧
      (spawnAsteroid g rndX rndHp).level = g.level ∧
      (spawnAsteroid g rndX rndHp).score = g.score ∧
      (spawnAsteroid g rndX rndHp).lives = g.lives := by
  unfold spawnAsteroid
  simp only []
  split_ifs <;> simp [Game.hasSettings]

theorem spawnAsteroid_wf (g : Game) (rndX rndHp : ℚ) (h0 : 0 ≤ rndHp) (h1 : rndHp < 1)
    (hwf : ∀ a ∈ g.asteroids, a.wf) : ∀ a ∈ (spawnAsteroid g rndX rndHp).asteroids, a.wf := by
  unfold spawnAsteroid
  simp only []
  split_ifs
  · intro a ha
    rcases List.mem_append.mp ha with h | h
    · exact hwf a h
    · rw [List.mem_singleton.mp h]
      exact new_wf _ _ _ _ h0 h1
  all_goals exact hwf

theorem checkLevelProgression_keeps (g : Game) :
    (checkLevelProgression g).hasSettings = g.hasSettings ∧
      (checkLevelProgression g).score = g.score ∧
      (checkLevelProgression g).lives = g.lives ∧
      (checkLevelProgression g).asteroids = g.asteroids := by
  unfold checkLevelProgression
  simp only []
  split_ifs <;> simp [Game.hasSettings]

theorem checkLevelProgression_level (g : Game) (S : Int) (hS : S ≤ g.score)
    (ht : g.levelScoreThreshold = 500) (hl : g.level = min (⌊(S : ℚ) / 500⌋ + 1) 50) :
    (checkLevelProgression g).level = min (⌊(g.score : ℚ) / 500⌋ + 1) 50 := by
  have hmono : ⌊(S : ℚ) / 500⌋ ≤ ⌊(g.score : ℚ) / 500⌋ := by
    apply Int.floor_le_floor
    have : (S : ℚ) ≤ (g.score : ℚ) := by exact_mod_cast hS
    linarith
  unfold checkLevelProgression
  simp only [ht]
  have h500 : ((500 : Int) : ℚ) = 500 := by norm_num
  rw [h500]
  generalize ⌊(g.score : ℚ) / 500⌋ = n at hmono ⊢
  generalize ⌊(S : ℚ) / 500⌋ = m at hmono hl
  split_ifs with h
  · rfl
  · omega

theorem updateBullets_keeps (g : Game) :
    (updateBullets g).hasSettings = g.hasSettings ∧ (updateBullets g).level = g.level ∧
      (updateBullets g).score = g.score ∧ (updateBullets g).lives = g.lives ∧
      (updateBullets g).asteroids = g.asteroids := by
  simp [updateBullets, Game.hasSettings]

theorem advanceAsteroids_keeps (g : Game) :
    (advanceAsteroids g).hasSettings = g.hasSettings ∧ (advanceAsteroids g).level = g.level ∧
      (advanceAsteroids g).score = g.score ∧ (advanceAsteroids g).lives = g.lives := by
  simp [advanceAsteroids, Game.hasSettings]

theorem updateAsteroids_stable (L S V : Int) (hL : 0 ≤ L) (g : Game)
    (hwf : ∀ a ∈ g.asteroids, a.wf) (hg : g.stable L S V) :
    (∀ a ∈ (updateAsteroids g).asteroids, a.wf) ∧ (updateAsteroids g).stable L S V := by
  have h1 : (advanceAsteroids g).stable L S V := by
    obtain ⟨e1, e2, e3, e4⟩ := advanceAsteroids_keeps g
    simpa only [Game.stable, e1, e2, e3, e4] using hg
  have h2 := bulletAsteroidPass_stable L S V hL _ (advanceAsteroids_wf g hwf) h1
  have h3 := playerPass_stable L S V _ h2.2
  refine ⟨?_, h3.1⟩
  simp only [updateAsteroids, h3.2]
  exact h2.1

/-- One frame from a state that satisfies the session invariant: the invariant holds again,
the level and the score have not decreased and the lives have not increased. -/
theorem update_inv (g : Game) (i : FrameInput) (hi : i.valid) (h : g.inv) :
    (update g i).inv ∧ g.level ≤ (update g i).level ∧ g.score ≤ (update g i).score ∧
      (update g i).lives ≤ g.lives := by
  obtain ⟨hset, hs0, hlev, hliv, hwf⟩ := h
  unfold update
  split_ifs with hgo
  swap
  · exact ⟨⟨hset, hs0, hlev, hliv, hwf⟩, le_refl _, le_refl _, le_refl _⟩
  simp only []
  have hL : 0 ≤ g.level := by
    rw [hlev]
    have : 0 ≤ ⌊(g.score : ℚ) / 500⌋ := Int.floor_nonneg.mpr (by positivity)
    omega
  have h1 : (updateBullets (updatePlayer g i.now)).stable g.level g.score g.lives := by
    obtain ⟨e1, e2, e3, e4, _⟩ := updateBullets_keeps (updatePlayer g i.now)
    obtain ⟨f1, f2, f3, f4, _⟩ := updatePlayer_keeps g i.now
    unfold Game.stable
    rw [e1, e2, e3, e4, f1, f2, f3, f4]
    exact ⟨hset, rfl, le_refl _, le_refl _⟩
  have hwf1 : ∀ a ∈ (updateBullets (updatePlayer g i.now)).asteroids, a.wf := by
    rw [(updateBullets_keeps _).2.2.2.2, (updatePlayer_keeps g i.now).2.2.2.2.1]
    exact hwf
  obtain ⟨hwf2, hset2, hl2, hs2, hv2⟩ :=
    updateAsteroids_stable g.level g.score g.lives hL _ hwf1 h1
  generalize updateAsteroids (updateBullets (updatePlayer g i.now)) = g3 at hwf2 hset2 hl2 hs2 hv2 ⊢
  have hlev4 := checkLevelProgression_level g3 g.score hs2 hset2.2.2.1 (hl2.trans hlev)
  obtain ⟨c1, c2, c3, c4⟩ := checkLevelProgression_keeps g3
  have hmono : ⌊(g.score : ℚ) / 500⌋ ≤ ⌊(g3.score : ℚ) / 500⌋ := by
    apply Int.floor_le_floor
    have : (g.score : ℚ) ≤ (g3.score : ℚ) := by exact_mod_cast hs2
    linarith
  have hinv4 : (checkLevelProgression g3).inv ∧ g.level ≤ (checkLevelProgression g3).level ∧
      g.score ≤ (checkLevelProgression g3).score ∧ (checkLevelProgression g3).lives ≤ g.lives := by
    refine ⟨⟨?_, ?_, ?_, ?_, ?_⟩, ?_, ?_, ?_⟩
    · rw [c1]; exact hset2
    · rw [c2]; omega
    · rw [c2]; exact hlev4
    · rw [c3]; omega
    · rw [c4]; exact hwf2
    · rw [hlev4, hlev]; omega
    · rw [c2]; exact hs2
    · rw [c3]; exact hv2
  split_ifs
  · obtain ⟨s1, s2, s3, s4⟩ := spawnAsteroid_keeps (checkLevelProgression g3) i.rndX i.rndHp
    obtain ⟨⟨k1, k2, k3, k4, k5⟩, k6, k7, k8⟩ := hinv4
    refine ⟨⟨?_, ?_, ?_, ?_, ?_⟩, ?_, ?_, ?_⟩
    · rw [s1]; exact k1
    · rw [s3]; exact k2
    · rw [s2, s3]; exact k3
    · rw [s4]; exact k4
    · exact spawnAsteroid_wf _ _ _ hi.2.2.1 hi.2.2.2 k5
    · rw [s2]; exact k6
    · rw [s3]; exact k7
    · rw [s4]; exact k8
  · exact hinv4

theorem resetGame_inv (g : Game) (h : g.hasSettings) : (resetGame g).inv := by
  obtain ⟨h1, h2, h3, h4, h5⟩ := h
  refine ⟨⟨h1, h2, h3, h4, h5⟩, ?_, ?_, ?_, ?_⟩
  · simp [resetGame]
  · simp [resetGame]
  · simp [resetGame]
  · simp [resetGame]

theorem keys_inv (g : Game) (keys : Keys) (h : g.inv) : Game.inv { g with keys := keys } := h

/-- Every state of a session satisfies the session invariant. -/
theorem Session.inv (g : Game) (h : Session g) : g.inv := by
  induction h with
  | reset g hg => exact resetGame_inv g hg
  | frame g keys i _ hi ih => exact (update_inv _ i hi (keys_inv g keys ih)).1

/-! ### The shot clock -/

theorem scoreDestroyed_clock (g : Game) (a : Asteroid) :
    (scoreDestroyed g a).lastShot = g.lastShot ∧ (scoreDestroyed g a).shootDelay = g.shootDelay := by
  unfold scoreDestroyed
  simp only []
  split_ifs <;> simp

theorem filterAsteroids_clock (b : Bullet) (l : List Asteroid) :
    ∀ (hit : Bool) (g : Game),
      (filterAsteroids b l hit g).2.2.lastShot = g.lastShot ∧
        (filterAsteroids b l hit g).2.2.shootDelay = g.shootDelay := by
  induction l with
  | nil => intro hit g; exact ⟨rfl, rfl⟩
  | cons a rest ih =>
    intro hit g
    simp only [filterAsteroids]
    split_ifs
    · obtain ⟨e1, e2⟩ := scoreDestroyed_clock g a.hit.1
      obtain ⟨f1, f2⟩ := ih true (scoreDestroyed g a.hit.1)
      exact ⟨f1.trans e1, f2.trans e2⟩
    · exact ih true g
    · exact ih hit g

theorem filterBullets_clock (bs : List Bullet) :
    ∀ g : Game, (filterBullets bs g).2.lastShot = g.lastShot ∧
      (filterBullets bs g).2.shootDelay = g.shootDelay := by
  induction bs with
  | nil => intro g; exact ⟨rfl, rfl⟩
  | cons b rest ih =>
    intro g
    obtain ⟨e1, e2⟩ := filterAsteroids_clock b g.asteroids false g
    obtain ⟨f1, f2⟩ := ih (bulletCallback g b).2
    rw [filterBullets_cons]
    exact ⟨f1.trans e1, f2.trans e2⟩

theorem playerCallback_clock (g : Game) (a : Asteroid) :
    (playerCallback g a).lastShot = g.lastShot ∧ (playerCallback g a).shootDelay = g.shootDelay := by
  simp only [playerCallback, gameOver, showGameOverScreen]
  split_ifs <;> simp

theorem foldl_playerCallback_clock (l : List Asteroid) :
    ∀ g : Game, (l.foldl playerCallback g).lastShot = g.lastShot ∧
      (l.foldl playerCallback g).shootDelay = g.shootDelay := by
  induction l with
  | nil => intro g; exact ⟨rfl, rfl⟩
  | cons a rest ih =>
    intro g
    obtain ⟨e1, e2⟩ := playerCallback_clock g a
    obtain ⟨f1, f2⟩ := ih (playerCallback g a)
    exact ⟨f1.trans e1, f2.trans e2⟩

theorem updateAsteroids_clock (g : Game) :
    (updateAsteroids g).lastShot = g.lastShot ∧ (updateAsteroids g).shootDelay = g.shootDelay := by
  have h1 := filterBullets_clock (advanceAsteroids g).bullets (advanceAsteroids g)
  have h2 : (bulletAsteroidPass (advanceAsteroids g)).lastShot = g.lastShot ∧
      (bulletAsteroidPass (advanceAsteroids g)).shootDelay = g.shootDelay := h1
  simp only [updateAsteroids, playerPass]
  split_ifs
  · obtain ⟨f1, f2⟩ := foldl_playerCallback_clock (bulletAsteroidPass (advanceAsteroids g)).asteroids
      (bulletAsteroidPass (advanceAsteroids g))
    exact ⟨f1.trans h2.1, f2.trans h2.2⟩
  · exact h2

theorem checkLevelProgression_clock (g : Game) :
    (checkLevelProgression g).lastShot = g.lastShot ∧
      (checkLevelProgression g).shootDelay = g.shootDelay := by
  unfold checkLevelProgression
  simp only []
  split_ifs <;> simp

theorem spawnAsteroid_clock (g : Game) (rndX rndHp : ℚ) :
    (spawnAsteroid g rndX rndHp).lastShot = g.lastShot ∧
      (spawnAsteroid g rndX rndHp).shootDelay = g.shootDelay := by
  unfold spawnAsteroid
  simp only []
  split_ifs <;> simp

/-- What `fireBullet` does, by cases on its condition. -/
theorem fireBullet_cases (g : Game) (now : Int) :
    (g.gameOver = false ∧ now - g.lastShot ≥ g.shootDelay →
      fireBullet g now =
        { g with
          bullets := g.bullets ++
            [({ x := g.player.x, y := g.player.y + g.player.height / 2, speedX := 0,
                speedY := 0.02, width := 0.02, height := 0.04 } : Bullet)]
          lastShot := now }) ∧
      (¬ (g.gameOver = false ∧ now - g.lastShot ≥ g.shootDelay) → fireBullet g now = g) := by
  constructor
  · rintro ⟨h1, h2⟩
    simp [fireBullet, h1, h2]
  · intro h
    unfold fireBullet
    split_ifs with hc
    · exfalso
      apply h
      simpa using hc
    · rfl

/-- The fields `updatePlayer` passes to `fireBullet` unchanged. -/
theorem updatePlayer_clock (g : Game) (now : Int) :
    (updatePlayer g now).shootDelay = g.shootDelay ∧
      ((updatePlayer g now).bullets.length = g.bullets.length + 1 →
        (updatePlayer g now).lastShot = now ∧ g.lastShot + g.shootDelay ≤ now) ∧
      (¬ (updatePlayer g now).bullets.length = g.bullets.length + 1 →
        (updatePlayer g now).lastShot = g.lastShot) := by
  unfold updatePlayer fireBullet
  simp only []
  split_ifs with h1 h2 h3 h4 h5 h6 h7 h8 h9 h10 <;> simp at * <;> omega

/-- Over one frame `shootDelay` is kept and `lastShot` becomes the frame's timestamp exactly
when the frame fires, which needs the delay to have elapsed. -/
theorem update_clock (g : Game) (i : FrameInput) :
    (update g i).shootDelay = g.shootDelay ∧
      (firesIn g i = true → (update g i).lastShot = i.now ∧ g.lastShot + g.shootDelay ≤ i.now) ∧
      (firesIn g i = false → (update g i).lastShot = g.lastShot) := by
  by_cases hgo : g.gameOver = true
  · have hu : update g i = g := by simp [update, hgo]
    have hf : firesIn g i = false := by simp [firesIn, hgo]
    rw [hu, hf]
    simp
  · have hgo' : g.gameOver = false := by simpa using hgo
    obtain ⟨p1, p2, p3⟩ := updatePlayer_clock g i.now
    have hrest : (update g i).lastShot = (updatePlayer g i.now).lastShot ∧
        (update g i).shootDelay = (updatePlayer g i.now).shootDelay := by
      have hb : (updateBullets (updatePlayer g i.now)).lastShot = (updatePlayer g i.now).lastShot ∧
          (updateBullets (updatePlayer g i.now)).shootDelay =
            (updatePlayer g i.now).shootDelay := ⟨rfl, rfl⟩
      obtain ⟨a1, a2⟩ := updateAsteroids_clock (updateBullets (updatePlayer g i.now))
      obtain ⟨c1, c2⟩ := checkLevelProgression_clock
        (updateAsteroids (updateBullets (updatePlayer g i.now)))
      obtain ⟨s1, s2⟩ := spawnAsteroid_clock
        (checkLevelProgression (updateAsteroids (updateBullets (updatePlayer g i.now))))
        i.rndX i.rndHp
      simp only [update, hgo', Bool.not_false, if_true]
      split_ifs
      · exact ⟨s1.trans (c1.trans (a1.trans hb.1)), s2.trans (c2.trans (a2.trans hb.2))⟩
      · exact ⟨c1.trans (a1.trans hb.1), c2.trans (a2.trans hb.2)⟩
    refine ⟨hrest.2.trans p1, ?_, ?_⟩
    · intro hf
      have hl : (updatePlayer g i.now).bullets.length = g.bullets.length + 1 := by
        simpa [firesIn, hgo'] using hf
      exact ⟨hrest.1.trans (p2 hl).1, (p2 hl).2⟩
    · intro hf
      have hl : ¬ (updatePlayer g i.now).bullets.length = g.bullets.length + 1 := by
        simpa [firesIn, hgo'] using hf
      exact hrest.1.trans (p3 hl)

/-- Every shot of a run comes at least `shootDelay` after the `lastShot` the run starts
with. -/
theorem shotTimes_ge (frames : List (Keys × FrameInput)) :
    ∀ g : Game, 0 ≤ g.shootDelay → ∀ t ∈ shotTimes g frames, g.lastShot + g.shootDelay ≤ t := by
  induction frames with
  | nil => intro g _ t ht; simp [shotTimes] at ht
  | cons f rest ih =>
    obtain ⟨keys, i⟩ := f
    intro g hd t ht
    obtain ⟨u1, u2, u3⟩ := update_clock { g with keys := keys } i
    simp only [shotTimes, List.mem_append] at ht
    have hd' : 0 ≤ (update { g with keys := keys } i).shootDelay := by rw [u1]; exact hd
    rcases ht with ht | ht
    · by_cases hf : firesIn { g with keys := keys } i = true
      · rw [if_pos hf, List.mem_singleton] at ht
        rw [ht]
        exact (u2 hf).2
      · rw [if_neg hf] at ht
        simp at ht
    · have := ih _ hd' t ht
      rw [u1] at this
      by_cases hf : firesIn { g with keys := keys } i = true
      · have h2 := u2 hf
        rw [h2.1] at this
        have h3 : g.lastShot + g.shootDelay ≤ i.now := h2.2
        have h4 : ({ g with keys := keys } : Game).shootDelay = g.shootDelay := rfl
        omega
      · have h2 := u3 (by simpa using hf)
        rw [h2] at this
        exact this

/-- Any two shots of a run are at least `shootDelay` apart. -/
theorem shotTimes_pairwise (frames : List (Keys × FrameInput)) :
    ∀ g : Game, 0 ≤ g.shootDelay →
      (shotTimes g frames).Pairwise fun a b => a + g.shootDelay ≤ b := by
  induction frames with
  | nil => intro g _; simp [shotTimes]
  | cons f rest ih =>
    obtain ⟨keys, i⟩ := f
    intro g hd
    obtain ⟨u1, u2, u3⟩ := update_clock { g with keys := keys } i
    have hd' : 0 ≤ (update { g with keys := keys } i).shootDelay := by rw [u1]; exact hd
    have hrest := ih _ hd'
    rw [u1] at hrest
    have hge := shotTimes_ge rest _ hd'
    rw [u1] at hge
    simp only [shotTimes]
    by_cases hf : firesIn { g with keys := keys } i = true
    · rw [if_pos hf, List.singleton_append, List.pairwise_cons]
      refine ⟨?_, hrest⟩
      intro t ht
      have := hge t ht
      rw [(u2 hf).1] at this
      exact this
    · rw [if_neg hf, List.nil_append]
      exact hrest

theorem firesIn_iff (g : Game) (i : FrameInput) :
    firesIn g i = true ↔
      g.keys.space = true ∧ g.gameOver = false ∧ i.now - g.lastShot ≥ g.shootDelay := by
  unfold firesIn updatePlayer fireBullet
  simp only []
  split_ifs <;> simp_all

/-! ### Rounding to binary64 -/

theorem roundHalfEven_bounds (q : ℚ) : ⌊q⌋ ≤ roundHalfEven q ∧ roundHalfEven q ≤ ⌊q⌋ + 1 := by
  unfold roundHalfEven
  split_ifs <;> omega

theorem roundHalfEven_intCast (n : Int) : roundHalfEven (n : ℚ) = n := by
  simp [roundHalfEven]

theorem roundHalfEven_mono {a b : ℚ} (h : a ≤ b) : roundHalfEven a ≤ roundHalfEven b := by
  have hf : ⌊a⌋ ≤ ⌊b⌋ := Int.floor_le_floor h
  rcases lt_or_eq_of_le hf with hlt | heq
  · have h1 := (roundHalfEven_bounds a).2
    have h2 := (roundHalfEven_bounds b).1
    omega
  · unfold roundHalfEven
    rw [← heq]
    have hab : a - ⌊a⌋ ≤ b - ⌊a⌋ := by linarith
    split_ifs <;> first | omega | (exfalso; linarith)

theorem roundMagnitude_zero : roundMagnitude 0 = 0 := by
  simp [roundMagnitude, roundHalfEven]

theorem two_zpow_pos (z : Int) : (0 : ℚ) < (2 : ℚ) ^ z := zpow_pos (by norm_num) z

theorem two_pow_mul_zpow (n : ℕ) (z : Int) :
    (((2 : Int) ^ n : Int) : ℚ) * (2 : ℚ) ^ (z - (n : Int)) = (2 : ℚ) ^ z := by
  rw [Int.cast_pow, Int.cast_ofNat, ← zpow_natCast, ← zpow_add₀ (by norm_num : (2 : ℚ) ≠ 0)]
  congr 1
  omega

theorem roundMagnitude_nonneg {q : ℚ} (h : 0 ≤ q) : 0 ≤ roundMagnitude q := by
  unfold roundMagnitude
  have hu := two_zpow_pos (binade q - 52)
  have h0 : (0 : ℚ) ≤ q / (2 : ℚ) ^ (binade q - 52) := div_nonneg h hu.le
  have h1 := roundHalfEven_mono h0
  rw [show ((0 : ℚ)) = ((0 : Int) : ℚ) by norm_num, roundHalfEven_intCast] at h1
  have h2 : (0 : ℚ) ≤ (roundHalfEven (q / (2 : ℚ) ^ (binade q - 52)) : ℚ) := by exact_mod_cast h1
  exact mul_nonneg h2 hu.le

theorem lt_two_zpow_binade (q : ℚ) : q < (2 : ℚ) ^ (binade q + 1) := by
  have h := Int.lt_zpow_succ_log_self (R := ℚ) (b := 2) (by norm_num) q
  have hle : Int.log 2 q + 1 ≤ binade q + 1 := by unfold binade; omega
  have := zpow_le_zpow_right₀ (a := (2 : ℚ)) (by norm_num) hle
  calc q < ((2 : ℕ) : ℚ) ^ (Int.log 2 q + 1) := h
    _ = (2 : ℚ) ^ (Int.log 2 q + 1) := by norm_num
    _ ≤ _ := this

theorem two_zpow_binade_le {q : ℚ} (hq : 0 < q) (hb : -1022 < binade q) :
    (2 : ℚ) ^ binade q ≤ q := by
  have he : binade q = Int.log 2 q := by unfold binade at hb ⊢; omega
  rw [he]
  have h := Int.zpow_log_le_self (R := ℚ) (b := 2) (by norm_num) hq
  simpa using h

/-- The scaled significand is at most `2 ^ 53`. -/
theorem significand_le (q : ℚ) :
    roundHalfEven (q / (2 : ℚ) ^ (binade q - 52)) ≤ 2 ^ 53 := by
  have hu := two_zpow_pos (binade q - 52)
  have h1 : q / (2 : ℚ) ^ (binade q - 52) ≤ (((2 : Int) ^ 53 : Int) : ℚ) := by
    rw [div_le_iff₀ hu]
    have h2 := (lt_two_zpow_binade q).le
    have h3 : (((2 : Int) ^ 53 : Int) : ℚ) * (2 : ℚ) ^ (binade q - 52) = (2 : ℚ) ^ (binade q + 1) := by
      have := two_pow_mul_zpow 53 (binade q + 1)
      rwa [show binade q + 1 - ((53 : ℕ) : Int) = binade q - 52 by omega] at this
    rw [h3]
    exact h2
  have := roundHalfEven_mono h1
  rwa [roundHalfEven_intCast] at this

/-- In the normal range the scaled significand is at least `2 ^ 52`. -/
theorem le_significand {q : ℚ} (hq : 0 < q) (hb : -1022 < binade q) :
    2 ^ 52 ≤ roundHalfEven (q / (2 : ℚ) ^ (binade q - 52)) := by
  have hu := two_zpow_pos (binade q - 52)
  have h1 : (((2 : Int) ^ 52 : Int) : ℚ) ≤ q / (2 : ℚ) ^ (binade q - 52) := by
    rw [le_div_iff₀ hu]
    have h3 : (((2 : Int) ^ 52 : Int) : ℚ) * (2 : ℚ) ^ (binade q - 52) = (2 : ℚ) ^ binade q := by
      have := two_pow_mul_zpow 52 (binade q)
      rwa [show binade q - ((52 : ℕ) : Int) = binade q - 52 by omega] at this
    rw [h3]
    exact two_zpow_binade_le hq hb
  have := roundHalfEven_mono h1
  rwa [roundHalfEven_intCast] at this

theorem roundMagnitude_le (q : ℚ) : roundMagnitude q ≤ (2 : ℚ) ^ (binade q + 1) := by
  unfold roundMagnitude
  have hu := two_zpow_pos (binade q - 52)
  have h1 : (roundHalfEven (q / (2 : ℚ) ^ (binade q - 52)) : ℚ) ≤ (2 : ℚ) ^ (53 : Int) := by
    have := significand_le q
    have h2 : ((roundHalfEven (q / (2 : ℚ) ^ (binade q - 52)) : Int) : ℚ) ≤ (((2 : Int) ^ 53 : Int) : ℚ) := by
      exact_mod_cast this
    calc _ ≤ (((2 : Int) ^ 53 : Int) : ℚ) := h2
      _ = (2 : ℚ) ^ (53 : Int) := by norm_num
  calc _ ≤ (2 : ℚ) ^ (53 : Int) * (2 : ℚ) ^ (binade q - 52) := mul_le_mul_of_nonneg_right h1 hu.le
    _ = (2 : ℚ) ^ (binade q + 1) := by
      rw [← zpow_add₀ (by norm_num : (2 : ℚ) ≠ 0)]
      congr 1
      omega

theorem le_roundMagnitude {q : ℚ} (hq : 0 < q) (hb : -1022 < binade q) :
    (2 : ℚ) ^ binade q ≤ roundMagnitude q := by
  unfold roundMagnitude
  have hu := two_zpow_pos (binade q - 52)
  have h1 : (2 : ℚ) ^ (52 : Int) ≤ (roundHalfEven (q / (2 : ℚ) ^ (binade q - 52)) : ℚ) := by
    have := le_significand hq hb
    have h2 : (((2 : Int) ^ 52 : Int) : ℚ) ≤ ((roundHalfEven (q / (2 : ℚ) ^ (binade q - 52)) : Int) : ℚ) := by
      exact_mod_cast this
    calc (2 : ℚ) ^ (52 : Int) = (((2 : Int) ^ 52 : Int) : ℚ) := by norm_num
      _ ≤ _ := h2
  calc (2 : ℚ) ^ binade q = (2 : ℚ) ^ (52 : Int) * (2 : ℚ) ^ (binade q - 52) := by
        rw [← zpow_add₀ (by norm_num : (2 : ℚ) ≠ 0)]
        congr 1
        omega
    _ ≤ _ := mul_le_mul_of_nonneg_right h1 hu.le

theorem binade_mono {a b : ℚ} (ha : 0 < a) (h : a ≤ b) : binade a ≤ binade b := by
  have := Int.log_mono_right (b := 2) ha h
  unfold binade
  omega

theorem roundMagnitude_mono {a b : ℚ} (ha : 0 ≤ a) (h : a ≤ b) :
    roundMagnitude a ≤ roundMagnitude b := by
  rcases eq_or_lt_of_le ha with h0 | hpos
  · rw [← h0, roundMagnitude_zero]
    exact roundMagnitude_nonneg (by linarith)
  have hbpos : 0 < b := lt_of_lt_of_le hpos h
  rcases lt_or_eq_of_le (binade_mono hpos h) with hlt | heq
  · have hb : -1022 < binade b := by
      have : -1022 ≤ binade a := by unfold binade; omega
      omega
    calc roundMagnitude a ≤ (2 : ℚ) ^ (binade a + 1) := roundMagnitude_le a
      _ ≤ (2 : ℚ) ^ binade b := zpow_le_zpow_right₀ (by norm_num) (by omega)
      _ ≤ roundMagnitude b := le_roundMagnitude hbpos hb
  · unfold roundMagnitude
    rw [heq]
    have hu := two_zpow_pos (binade b - 52)
    have h1 : a / (2 : ℚ) ^ (binade b - 52) ≤ b / (2 : ℚ) ^ (binade b - 52) :=
      div_le_div_of_nonneg_right h hu.le
    have h2 := roundHalfEven_mono h1
    have h3 : ((roundHalfEven (a / (2 : ℚ) ^ (binade b - 52)) : Int) : ℚ) ≤
        ((roundHalfEven (b / (2 : ℚ) ^ (binade b - 52)) : Int) : ℚ) := by exact_mod_cast h2
    exact mul_le_mul_of_nonneg_right h3 hu.le

/-- Rounding to binary64 is monotone. -/
theorem binary64_mono {a b : ℚ} (h : a ≤ b) : binary64 a ≤ binary64 b := by
  unfold binary64
  split_ifs with ha hb hb
  · exact neg_le_neg (roundMagnitude_mono (by linarith) (by linarith))
  · have h1 := roundMagnitude_nonneg (q := -a) (by linarith)
    have h2 := roundMagnitude_nonneg (q := b) (by linarith)
    linarith
  · exfalso; linarith
  · exact roundMagnitude_mono (by linarith) h

/-- A multiple of the unit of its own binade is its own rounding. -/
theorem roundMagnitude_of_binade (m E : Int)
    (h : binade ((m : ℚ) * (2 : ℚ) ^ (E - 52)) = E) :
    roundMagnitude ((m : ℚ) * (2 : ℚ) ^ (E - 52)) = (m : ℚ) * (2 : ℚ) ^ (E - 52) := by
  have hu := two_zpow_pos (E - 52)
  unfold roundMagnitude
  rw [h, mul_div_assoc, div_self hu.ne', mul_one, roundHalfEven_intCast]

theorem binade_ge (q : ℚ) : -1022 ≤ binade q := le_max_right _ _

theorem roundMagnitude_idem {q : ℚ} (hq : 0 ≤ q) :
    roundMagnitude (roundMagnitude q) = roundMagnitude q := by
  have hE := binade_ge q
  have hu := two_zpow_pos (binade q - 52)
  have hm53 := significand_le q
  have hm0 : 0 ≤ roundHalfEven (q / (2 : ℚ) ^ (binade q - 52)) := by
    have h0 : (0 : ℚ) ≤ q / (2 : ℚ) ^ (binade q - 52) := div_nonneg hq hu.le
    have h1 := roundHalfEven_mono h0
    rwa [show ((0 : ℚ)) = ((0 : Int) : ℚ) by norm_num, roundHalfEven_intCast] at h1
  have hdef : roundMagnitude q =
      (roundHalfEven (q / (2 : ℚ) ^ (binade q - 52)) : ℚ) * (2 : ℚ) ^ (binade q - 52) := rfl
  generalize hm : roundHalfEven (q / (2 : ℚ) ^ (binade q - 52)) = m at hm53 hm0 hdef
  rcases eq_or_lt_of_le hm0 with h0 | hpos
  · rw [hdef, ← h0]
    simp [roundMagnitude_zero]
  have hqpos : 0 < q := by
    rcases eq_or_lt_of_le hq with h | h
    · exfalso
      rw [← h] at hm
      simp [roundHalfEven] at hm
      omega
    · exact h
  rcases eq_or_lt_of_le hm53 with h53 | hlt53
  · -- the significand rounds up to the next power of two
    have hv : roundMagnitude q = (((2 : Int) ^ 52 : Int) : ℚ) * (2 : ℚ) ^ ((binade q + 1) - 52) := by
      rw [hdef, h53]
      have e1 := two_pow_mul_zpow 53 (binade q + 1)
      have e2 := two_pow_mul_zpow 52 (binade q + 1)
      rw [show binade q + 1 - ((53 : ℕ) : Int) = binade q - 52 by omega] at e1
      rw [show binade q + 1 - ((52 : ℕ) : Int) = binade q + 1 - 52 by omega] at e2
      rw [e1, e2]
    rw [hv]
    apply roundMagnitude_of_binade
    have e2 := two_pow_mul_zpow 52 (binade q + 1)
    rw [show binade q + 1 - ((52 : ℕ) : Int) = binade q + 1 - 52 by omega] at e2
    rw [e2]
    unfold binade
    have hl : Int.log 2 ((2 : ℚ) ^ (max (Int.log 2 q) (-1022) + 1)) =
        max (Int.log 2 q) (-1022) + 1 := by
      have := Int.log_zpow (R := ℚ) (b := 2) (by norm_num) (max (Int.log 2 q) (-1022) + 1)
      simpa using this
    rw [hl]
    omega
  · rw [hdef]
    apply roundMagnitude_of_binade
    have hvpos : (0 : ℚ) < (m : ℚ) * (2 : ℚ) ^ (binade q - 52) :=
      mul_pos (by exact_mod_cast hpos) hu
    have hvlt : (m : ℚ) * (2 : ℚ) ^ (binade q - 52) < (2 : ℚ) ^ (binade q + 1) := by
      have e1 := two_pow_mul_zpow 53 (binade q + 1)
      rw [show binade q + 1 - ((53 : ℕ) : Int) = binade q - 52 by omega] at e1
      rw [← e1]
      apply mul_lt_mul_of_pos_right _ hu
      exact_mod_cast hlt53
    have hlog : Int.log 2 ((m : ℚ) * (2 : ℚ) ^ (binade q - 52)) < binade q + 1 := by
      rw [← Int.lt_zpow_iff_log_lt (R := ℚ) (b := 2) (by norm_num) hvpos]
      simpa using hvlt
    rcases eq_or_lt_of_le hE with hEq | hEgt
    · unfold binade at hlog hEq ⊢
      omega
    · have hm52 : 2 ^ 52 ≤ m := by
        rw [← hm]
        exact le_significand hqpos hEgt
      have hvge : (2 : ℚ) ^ binade q ≤ (m : ℚ) * (2 : ℚ) ^ (binade q - 52) := by
        have e2 := two_pow_mul_zpow 52 (binade q)
        rw [show binade q - ((52 : ℕ) : Int) = binade q - 52 by omega] at e2
        rw [← e2]
        apply mul_le_mul_of_nonneg_right _ hu.le
        exact_mod_cast hm52
      have hlog2 : binade q ≤ Int.log 2 ((m : ℚ) * (2 : ℚ) ^ (binade q - 52)) := by
        rw [← Int.zpow_le_iff_le_log (R := ℚ) (b := 2) (by norm_num) hvpos]
        simpa using hvge
      have hb : binade ((m : ℚ) * (2 : ℚ) ^ (binade q - 52)) =
          max (Int.log 2 ((m : ℚ) * (2 : ℚ) ^ (binade q - 52))) (-1022) := rfl
      rw [hb]
      omega

/-- A binary64 value rounds to itself. -/
theorem binary64_idem (q : ℚ) : binary64 (binary64 q) = binary64 q := by
  unfold binary64
  by_cases hq : q < 0
  · rw [if_pos hq]
    have hn := roundMagnitude_nonneg (q := -q) (by linarith)
    rcases eq_or_lt_of_le hn with h0 | hpos
    · rw [← h0]
      simp [roundMagnitude_zero]
    · rw [if_pos (by linarith), neg_neg, roundMagnitude_idem (by linarith)]
  · rw [if_neg hq]
    have hn := roundMagnitude_nonneg (q := q) (by linarith)
    rw [if_neg (by linarith), roundMagnitude_idem (by linarith)]

theorem binary64_zero : binary64 0 = 0 := by
  simp [binary64, roundMagnitude_zero]

theorem binary64_neg (q : ℚ) : binary64 (-q) = -binary64 q := by
  unfold binary64
  rcases lt_trichotomy q 0 with h | h | h
  · rw [if_pos h, if_neg (by linarith), neg_neg]
  · rw [h]; simp [roundMagnitude_zero]
  · rw [if_pos (by linarith), if_neg (by linarith), neg_neg]

theorem checkCollisionFl_id : checkCollisionFl id = checkCollision := rfl

theorem updatePlayerFl_id (g : Game) (now : Int) : updatePlayerFl id g now = updatePlayer g now :=
  rfl

/-- The player after `updatePlayerFl`: the left move, then the right move tested on the moved
position; firing does not touch the player. -/
theorem updatePlayerFl_player (fl : ℚ → ℚ) (g : Game) (now : Int) :
    (updatePlayerFl fl g now).player =
      { g.player with
        x :=
          if g.keys.right = true ∧
              (if g.keys.left = true ∧ g.player.x > -(fl 0.9) then fl (g.player.x - g.player.speed)
                else g.player.x) < fl 0.9 then
            fl ((if g.keys.left = true ∧ g.player.x > -(fl 0.9) then
              fl (g.player.x - g.player.speed) else g.player.x) + g.player.speed)
          else
            if g.keys.left = true ∧ g.player.x > -(fl 0.9) then fl (g.player.x - g.player.speed)
            else g.player.x } := by
  unfold updatePlayerFl fireBulletFl
  simp only []
  split_ifs <;> simp_all

/-! ### The example frames and states -/

theorem valid_spawnFrame : spawnFrame.valid := by decide!

theorem valid_quietFrame : quietFrame.valid := by decide!

theorem settings_game (stored : Int) : (game stored).hasSettings := by
  simp [game, Game.hasSettings]

theorem session_firstFrame : Session firstFrame :=
  Session.frame _ _ _ (Session.reset _ (settings_game 0)) valid_spawnFrame

/-! ## The claims -/

/-- C1 (amended): in the program's arithmetic, where every operation is rounded by a monotone
`fl` (binary64 rounding is one) and halving an extent is exact, `checkCollision(r1, r2)` returns
true whenever `|r1.x - r2.x| <= (r1.width + r2.width)/2` and
`|r1.y - r2.y| <= (r1.height + r2.height)/2`; in particular rectangles of non-negative width
whose edges exactly touch collide; and when it returns false the rectangles are apart on one
axis. -/
theorem checkCollisionFl_of_overlap (fl : ℚ → ℚ) (hmono : ∀ a b : ℚ, a ≤ b → fl a ≤ fl b)
    (r1 r2 : Rect)
    (hw1 : fl (r1.width / 2) = r1.width / 2) (hw2 : fl (r2.width / 2) = r2.width / 2)
    (hh1 : fl (r1.height / 2) = r1.height / 2) (hh2 : fl (r2.height / 2) = r2.height / 2) :
    (|r1.x - r2.x| ≤ (r1.width + r2.width) / 2 ∧
        |r1.y - r2.y| ≤ (r1.height + r2.height) / 2 →
      checkCollisionFl fl r1 r2 = true) ∧
      (0 ≤ r1.width → 0 ≤ r2.width → r1.x + r1.width / 2 = r2.x - r2.width / 2 →
        |r1.y - r2.y| ≤ (r1.height + r2.height) / 2 → checkCollisionFl fl r1 r2 = true) ∧
      (checkCollisionFl fl r1 r2 = false →
        (r1.width + r2.width) / 2 < |r1.x - r2.x| ∨
          (r1.height + r2.height) / 2 < |r1.y - r2.y|) := by
  have key : |r1.x - r2.x| ≤ (r1.width + r2.width) / 2 ∧
      |r1.y - r2.y| ≤ (r1.height + r2.height) / 2 → checkCollisionFl fl r1 r2 = true := by
    rintro ⟨hx, hy⟩
    rw [abs_le] at hx hy
    simp only [checkCollisionFl, hw1, hw2, hh1, hh2, Bool.not_eq_true', Bool.or_eq_false_iff,
      decide_eq_false_iff_not, not_lt, gt_iff_lt]
    exact ⟨⟨⟨hmono _ _ (by linarith), hmono _ _ (by linarith)⟩, hmono _ _ (by linarith)⟩,
      hmono _ _ (by linarith)⟩
  refine ⟨key, ?_, ?_⟩
  · intro h1 h2 ht hy
    apply key
    refine ⟨?_, hy⟩
    rw [abs_le]
    constructor <;> linarith
  · intro hf
    by_contra hn
    push_neg at hn
    rw [key hn] at hf
    exact Bool.noConfusion hf

/-- Two unit squares side by side, sharing an edge, collide in double precision. -/
theorem checkCollisionFl_of_overlap_witness :
    checkCollisionFl binary64 (unitSquareAt 0) (unitSquareAt 1) = true :=
  (checkCollisionFl_of_overlap binary64 (fun _ _ h => binary64_mono h) (unitSquareAt 0)
    (unitSquareAt 1) (by decide!) (by decide!) (by decide!) (by decide!)).2.1
    (by decide!) (by decide!) (by decide!) (by decide!)

/-- The player at `x = -0.28` and an asteroid at `x = -0.1`, in doubles: `checkCollision`
returns true in double precision although `|r1.x - r2.x| <= (r1.width + r2.width)/2` is false,
both for the exact values of the doubles and computed in double precision. -/
theorem checkCollisionFl_without_overlap :
    checkCollisionFl binary64 nearPlayer nearAsteroid = true ∧
      ¬ (|nearPlayer.x - nearAsteroid.x| ≤ (nearPlayer.width + nearAsteroid.width) / 2) ∧
      ¬ (|binary64 (nearPlayer.x - nearAsteroid.x)| ≤
        binary64 (binary64 (nearPlayer.width + nearAsteroid.width) / 2)) := by
  decide!

/-- C2: in every state of a session `levelScoreThreshold` is 500 and the level equals
`min(floor(score / levelScoreThreshold) + 1, 50)`; so the level never exceeds 50, and no
`update()` frame, whatever the keys, the clock and the random draws, lowers it. -/
theorem level_follows_score (g : Game) (h : Session g) :
    g.levelScoreThreshold = 500 ∧
      g.level = min (⌊(g.score : ℚ) / (g.levelScoreThreshold : ℚ)⌋ + 1) 50 ∧
      g.level ≤ 50 ∧
      ∀ (keys : Keys) (i : FrameInput), i.valid →
        g.level ≤ (update { g with keys := keys } i).level ∧
        (update { g with keys := keys } i).level =
          min (⌊((update { g with keys := keys } i).score : ℚ) /
            ((update { g with keys := keys } i).levelScoreThreshold : ℚ)⌋ + 1) 50 := by
  have hinv := Session.inv g h
  have ht : g.levelScoreThreshold = 500 := hinv.1.2.2.1
  have hl := hinv.2.2.1
  refine ⟨ht, ?_, ?_, ?_⟩
  · rw [ht]; exact_mod_cast hl
  · rw [hl]; exact min_le_right _ _
  · intro keys i hi
    have hu := update_inv _ i hi (keys_inv g keys hinv)
    refine ⟨hu.2.1, ?_⟩
    rw [hu.1.1.2.2.1]
    exact_mod_cast hu.1.2.2.1

/-- The state after the first frame of a session is at level 1 and a further frame keeps the
level on the score. -/
theorem level_follows_score_witness :
    Session firstFrame ∧ firstFrame.levelScoreThreshold = 500 ∧
      firstFrame.level = min (⌊(firstFrame.score : ℚ) / (firstFrame.levelScoreThreshold : ℚ)⌋ + 1) 50 ∧
      firstFrame.level ≤ 50 :=
  ⟨session_firstFrame, (level_follows_score firstFrame session_firstFrame).1,
    (level_follows_score firstFrame session_firstFrame).2.1,
    (level_follows_score firstFrame session_firstFrame).2.2.1⟩

/-- C3: with one life left and the game not over, a frame in which the player overlaps two
asteroids takes a life for each: `update()` leaves `lives = -1`, with `gameOver` set. -/
theorem update_lives_negative :
    twoAsteroidState.gameOver = false ∧ twoAsteroidState.lives = 1 ∧
      twoAsteroidState.asteroids.length = 2 ∧
      (update twoAsteroidState quietFrame).lives = -1 ∧
      (update twoAsteroidState quietFrame).gameOver = true := by
  decide!

/-- C4 (amended): when a bullet is the only bullet that overlaps an asteroid, and the first
asteroid in collection order that it overlaps has `hitPoints = 1` and a non-zero
`initialHitPoints`, the bullet/asteroid pass removes that asteroid and that bullet, keeps all
other bullets and asteroids, and raises the score by exactly
`scorePerAsteroid * initialHitPoints * min(level, 5)`. -/
theorem bulletAsteroidPass_destroys (g : Game) (bs1 bs2 : List Bullet) (b : Bullet)
    (l1 l2 : List Asteroid) (a : Asteroid)
    (hb : g.bullets = bs1 ++ b :: bs2) (ha : g.asteroids = l1 ++ a :: l2)
    (hothers : ∀ b' ∈ bs1 ++ bs2, ∀ x ∈ g.asteroids, checkCollision b'.rect x.rect = false)
    (hfirst : ∀ x ∈ l1, checkCollision b.rect x.rect = false)
    (hov : checkCollision b.rect a.rect = true)
    (hp : a.hitPoints = 1) (hi : a.initialHitPoints ≠ 0) :
    (bulletAsteroidPass g).asteroids = l1 ++ l2 ∧
      (bulletAsteroidPass g).bullets = bs1 ++ bs2 ∧
      (bulletAsteroidPass g).score =
        g.score + g.scorePerAsteroid * a.initialHitPoints * min g.level 5 := by
  have hd : a.hit.2 = true := by simp [Asteroid.hit, hp]
  have h1 : filterBullets bs1 g = (bs1, g) :=
    filterBullets_miss bs1 g fun x hx => hothers x (List.mem_append_left bs2 hx)
  have hcb := bulletCallback_first g b l1 l2 a ha hfirst hov
  rw [if_pos hd] at hcb
  obtain ⟨e1, e2, e3, e4, e5⟩ := scoreDestroyed_score g a.hit.1
  have h2 : filterBullets bs2 { scoreDestroyed g a.hit.1 with asteroids := l1 ++ l2 } =
      (bs2, { scoreDestroyed g a.hit.1 with asteroids := l1 ++ l2 }) := by
    apply filterBullets_miss
    intro x hx y hy
    apply hothers x (List.mem_append_right bs1 hx) y
    rw [ha]
    rcases List.mem_append.mp hy with h | h
    · exact List.mem_append_left _ h
    · exact List.mem_append_right _ (List.mem_cons_of_mem a h)
  have hi' : a.hit.1.initialHitPoints = a.initialHitPoints := rfl
  simp only [bulletAsteroidPass, hb, filterBullets_append, h1, filterBullets_cons, hcb, h2]
  simp [e1, scoreIncrease, hi', hi]

/-- From score 0 at level 1, one bullet over one asteroid of 1 hit point: score 10, no bullet
and no asteroid left. -/
theorem bulletAsteroidPass_destroys_witness :
    singleHitState.score = 0 ∧ singleHitState.level = 1 ∧
      (bulletAsteroidPass singleHitState).asteroids = [] ∧
      (bulletAsteroidPass singleHitState).bullets = [] ∧
      (bulletAsteroidPass singleHitState).score = 0 + 10 * 1 * min 1 5 :=
  ⟨rfl, rfl,
    bulletAsteroidPass_destroys singleHitState [] [] (bulletAt 0 0) [] [] (asteroidAt 0 0 1 1)
      rfl rfl (by simp) (by simp) (by decide!) rfl (by decide)⟩

/-- The second asteroid of `shieldedState` has 1 hit point and overlaps the bullet, and the
bullet/asteroid pass neither removes it nor changes the score: the bullet hits the first
asteroid. -/
theorem bulletAsteroidPass_shielded :
    asteroidAt 0 0 1 1 ∈ shieldedState.asteroids ∧
      checkCollision (bulletAt 0 0).rect (asteroidAt 0 0 1 1).rect = true ∧
      bulletAt 0 0 ∈ shieldedState.bullets ∧
      asteroidAt 0 0 1 1 ∈ (bulletAsteroidPass shieldedState).asteroids ∧
      (bulletAsteroidPass shieldedState).score = shieldedState.score := by
  decide!

/-- C5: in the bullet/asteroid pass each bullet is tested against the asteroids in collection
order as they are when its turn comes. A bullet that overlaps none of them is kept and changes
nothing. Otherwise it hits exactly the first one it overlaps and is removed: that asteroid is
dropped when its hit points reach 0 and otherwise stays in place with `hitPoints` lowered by 1
and `flashTimer = 10`; every other asteroid is untouched. The bullets before and after it in the
collection are processed on the state before and after its turn. -/
theorem bullet_hits_first_overlap (g : Game) (b : Bullet) :
    ((∀ a ∈ g.asteroids, checkCollision b.rect a.rect = false) →
        bulletCallback g b = (false, g)) ∧
      (∀ l1 a l2, g.asteroids = l1 ++ a :: l2 →
        (∀ x ∈ l1, checkCollision b.rect x.rect = false) →
        checkCollision b.rect a.rect = true →
          (bulletCallback g b).1 = true ∧
          (a.hitPoints - 1 ≤ 0 → (bulletCallback g b).2.asteroids = l1 ++ l2) ∧
          (0 < a.hitPoints - 1 → (bulletCallback g b).2.asteroids =
            l1 ++ { a with hitPoints := a.hitPoints - 1, flashTimer := 10 } :: l2)) ∧
      ((bulletCallback g b).1 = true ↔ ∃ a ∈ g.asteroids, checkCollision b.rect a.rect = true) ∧
      (∀ (bs1 bs2 : List Bullet) (s : Game), (filterBullets bs1 s).2 = g →
        (filterBullets (bs1 ++ b :: bs2) s).1 =
          (filterBullets bs1 s).1 ++ (if (bulletCallback g b).1 then [] else [b]) ++
            (filterBullets bs2 (bulletCallback g b).2).1) := by
  have hfirst : ∀ l1 a l2, g.asteroids = l1 ++ a :: l2 →
      (∀ x ∈ l1, checkCollision b.rect x.rect = false) →
      checkCollision b.rect a.rect = true →
        (bulletCallback g b).1 = true ∧
        (a.hitPoints - 1 ≤ 0 → (bulletCallback g b).2.asteroids = l1 ++ l2) ∧
        (0 < a.hitPoints - 1 → (bulletCallback g b).2.asteroids =
          l1 ++ { a with hitPoints := a.hitPoints - 1, flashTimer := 10 } :: l2) := by
    intro l1 a l2 hs h1 ha
    have hcb := bulletCallback_first g b l1 l2 a hs h1 ha
    by_cases hd : a.hitPoints - 1 ≤ 0
    · have hd2 : a.hit.2 = true := by simp [Asteroid.hit, hd]
      rw [if_pos hd2] at hcb
      rw [hcb]
      exact ⟨rfl, fun _ => rfl, fun h => absurd hd (not_le.mpr h)⟩
    · have hd2 : ¬ a.hit.2 = true := by simp [Asteroid.hit, hd]
      rw [if_neg hd2] at hcb
      rw [hcb]
      exact ⟨rfl, fun h => absurd h hd, fun _ => rfl⟩
  refine ⟨bulletCallback_miss g b, hfirst, ?_, ?_⟩
  · constructor
    · intro h
      by_contra hn
      push_neg at hn
      have hm := bulletCallback_miss g b fun a ha => by simpa using hn a ha
      rw [hm] at h
      exact Bool.false_ne_true h
    · rintro ⟨a, ha, hc⟩
      rcases first_overlap_split b g.asteroids with h | ⟨l1, x, l2, hs, h1, hx⟩
      · rw [h a ha] at hc
        exact absurd hc Bool.false_ne_true
      · exact (hfirst l1 x l2 hs h1 hx).1
  · intro bs1 bs2 s hs
    rw [filterBullets_append, filterBullets_cons, hs]
    split_ifs <;> simp

/-- The bullet of `shieldedState` overlaps both asteroids: it is removed, the first asteroid
stays with 2 of its 3 hit points and `flashTimer = 10`, the second is untouched. -/
theorem bullet_hits_first_overlap_witness :
    (bulletCallback shieldedState (bulletAt 0 0)).1 = true ∧
      (bulletCallback shieldedState (bulletAt 0 0)).2.asteroids =
        [] ++ { asteroidAt 0 0 3 3 with hitPoints := 3 - 1, flashTimer := 10 } ::
          [asteroidAt 0 0 1 1] := by
  have h := (bullet_hits_first_overlap shieldedState (bulletAt 0 0)).2.1 []
    (asteroidAt 0 0 3 3) [asteroidAt 0 0 1 1] rfl (by simp) (by decide!)
  exact ⟨h.1, h.2.2 (by decide)⟩

/-- C6 (amended): `spawnAsteroid` adds exactly one asteroid, at `y = 1.1` with `x` in
`[-0.9, 0.9)`, when the game is not over, the number of asteroids is strictly less than
`maxAsteroidsOnScreen + floor(level / 2)` and no asteroid has `|y - 1.1| < 0.3`; in every other
case it changes nothing. A spawn never raises the count above
`maxAsteroidsOnScreen + floor(level / 2)`. -/
theorem spawnAsteroid_spec (g : Game) (rndX rndHp : ℚ) (h0 : 0 ≤ rndX) (h1 : rndX < 1) :
    ((g.gameOver = false ∧
        (∃ m, g.maxAsteroidsOnScreen = some m ∧
          (g.asteroids.length : Int) < m + ⌊(g.level : ℚ) / 2⌋) ∧
        (∀ a ∈ g.asteroids, ¬ |a.y - 1.1| < 0.3)) →
        ∃ a, spawnAsteroid g rndX rndHp = { g with asteroids := g.asteroids ++ [a] } ∧
          a.y = 1.1 ∧ -0.9 ≤ a.x ∧ a.x < 0.9) ∧
      (¬ (g.gameOver = false ∧
        (∃ m, g.maxAsteroidsOnScreen = some m ∧
          (g.asteroids.length : Int) < m + ⌊(g.level : ℚ) / 2⌋) ∧
        (∀ a ∈ g.asteroids, ¬ |a.y - 1.1| < 0.3)) →
        spawnAsteroid g rndX rndHp = g) ∧
      (∀ m, g.maxAsteroidsOnScreen = some m →
        ((spawnAsteroid g rndX rndHp).asteroids.length : Int) ≤
          max (g.asteroids.length : Int) (m + ⌊(g.level : ℚ) / 2⌋)) := by
  refine ⟨?_, ?_, ?_⟩
  · rintro ⟨hgo, ⟨m, hm, hlt⟩, hsp⟩
    refine ⟨Asteroid.new g.level (rndX * 1.8 - 0.9) 1.1 rndHp, ?_, rfl, ?_, ?_⟩
    · have hany : (g.asteroids.any fun asteroid => decide (|asteroid.y - 1.1| < 0.3)) = false := by
        rw [List.any_eq_false]
        intro a ha
        simpa using hsp a ha
      simp [spawnAsteroid, hgo, hm, hlt, hany]
    · simp only [Asteroid.new]; norm_num; linarith
    · simp only [Asteroid.new]; norm_num; linarith
  · intro hn
    unfold spawnAsteroid
    simp only []
    split_ifs with hgo hb hc
    · exfalso
      apply hn
      refine ⟨by simpa using hgo, ?_, ?_⟩
      · cases hm : g.maxAsteroidsOnScreen with
        | none => simp [hm] at hb
        | some m => exact ⟨m, rfl, by simpa [hm] using hb⟩
      · intro a ha hlt
        simp only [Bool.not_eq_true', List.any_eq_false] at hc
        exact hc a ha (by simpa using hlt)
    · rfl
    · rfl
    · rfl
  · intro m hm
    unfold spawnAsteroid
    simp only [hm]
    split_ifs with hgo hb hc
    · have hlt : (g.asteroids.length : Int) < m + ⌊(g.level : ℚ) / 2⌋ := by simpa using hb
      simp only [List.length_append, List.length_singleton]
      push_cast
      omega
    · exact le_max_left _ _
    · exact le_max_left _ _
    · exact le_max_left _ _

/-- A spawn into the empty collection of a fresh session. -/
theorem spawnAsteroid_spec_witness :
    ∃ a, spawnAsteroid (resetGame (game 0)) 0.5 0.5 =
        { resetGame (game 0) with asteroids := (resetGame (game 0)).asteroids ++ [a] } ∧
      a.y = 1.1 ∧ -0.9 ≤ a.x ∧ a.x < 0.9 :=
  (spawnAsteroid_spec (resetGame (game 0)) 0.5 0.5 (by norm_num) (by norm_num)).1
    ⟨rfl, ⟨5, rfl, by decide!⟩, by simp [resetGame]⟩

/-- At level 2 with `maxAsteroidsOnScreen = 5` and five asteroids on screen, the game not
over, `spawnAsteroid` adds a sixth. -/
theorem spawnAsteroid_over_max :
    levelTwoState.gameOver = false ∧ levelTwoState.maxAsteroidsOnScreen = some 5 ∧
      levelTwoState.asteroids.length = 5 ∧
      (spawnAsteroid levelTwoState 0.5 0.5).asteroids.length = 6 := by
  decide!

/-- C7: the bonus-life check awards a life when `bonusLifeThreshold` and `maxLives` are numbers:
if the new score is at least `lastBonusLifeScore + bonusLifeThreshold` and `lives < maxLives`,
`lives` goes up by exactly 1 and `lastBonusLifeScore` becomes the new score. In a session of
the program both properties are undefined, so the check never passes: no frame raises
`lives`. -/
theorem bonus_life_never_awarded :
    (∀ (g : Game) (a : Asteroid) (last threshold maxLives : Int),
      g.lastBonusLifeScore = some last → g.bonusLifeThreshold = some threshold →
      g.maxLives = some maxLives →
      last + threshold ≤ g.score + scoreIncrease g a → g.lives < maxLives →
        (scoreDestroyed g a).lives = g.lives + 1 ∧
        (scoreDestroyed g a).lastBonusLifeScore = some (g.score + scoreIncrease g a)) ∧
      (∀ g : Game, Session g →
        g.bonusLifeThreshold = none ∧ g.maxLives = none ∧
        (∀ a : Asteroid, (scoreDestroyed g a).lives = g.lives) ∧
        ∀ (keys : Keys) (i : FrameInput), i.valid →
          (update { g with keys := keys } i).lives ≤ g.lives) := by
  constructor
  · intro g a last threshold maxLives h1 h2 h3 h4 h5
    simp [scoreDestroyed, bonusLifeDue, h1, h2, h3, h4, h5]
  · intro g h
    have hinv := Session.inv g h
    refine ⟨hinv.1.2.2.2.1, hinv.1.2.2.2.2, ?_, ?_⟩
    · intro a
      cases hlb : g.lastBonusLifeScore <;>
        simp [scoreDestroyed, bonusLifeDue, hinv.1.2.2.2.1, hinv.1.2.2.2.2, hlb]
    · intro keys i hi
      exact (update_inv _ i hi (keys_inv g keys hinv)).2.2.2

/-- After the first frame of a session the two properties are undefined and a further frame
does not raise `lives`; and destroying an asteroid worth 100 with 2 lives at score 990 leaves
2 lives at score 1090. -/
theorem bonus_life_never_awarded_witness :
    Session firstFrame ∧ firstFrame.bonusLifeThreshold = none ∧ firstFrame.maxLives = none ∧
      (update { firstFrame with keys := { left := false, right := false, space := true } }
        quietFrame).lives ≤ firstFrame.lives ∧
      (bulletAsteroidPass lowLivesState).score = 1090 ∧
      (bulletAsteroidPass lowLivesState).lives = 2 :=
  ⟨session_firstFrame, (bonus_life_never_awarded.2 firstFrame session_firstFrame).1,
    (bonus_life_never_awarded.2 firstFrame session_firstFrame).2.1,
    (bonus_life_never_awarded.2 firstFrame session_firstFrame).2.2.2 _ quietFrame
      valid_quietFrame, by decide!, by decide!⟩

/-- C8 (amended): `gameOver()` leaves `highScore = max(highScore, score)`, which is at least
the previous high score; a session left by returning to the main menu or by restarting from
the pause screen keeps the previous `highScore`, whatever its score. -/
theorem highScore_after_session (g : Game) (confirmed : Bool) :
    (gameOver g).highScore = max g.highScore g.score ∧
      g.highScore ≤ (gameOver g).highScore ∧
      (confirmMainMenu g confirmed).highScore = g.highScore ∧
      (restartFromPause g confirmed).highScore = g.highScore := by
  refine ⟨?_, ?_, ?_, ?_⟩
  · simp only [gameOver, showGameOverScreen]
    split_ifs with h
    · simp [max_eq_right (le_of_lt h)]
    · simp [max_eq_left (not_lt.mp h)]
  · simp only [gameOver, showGameOverScreen]
    split_ifs with h
    · exact le_of_lt h
    · exact le_refl _
  · cases confirmed <;> simp [confirmMainMenu, showStartScreen, resumeGame]
  · cases confirmed <;> simp [restartFromPause, resetGame, resumeGame]

/-- A paused session with score 120 and high score 0, left for the main menu or restarted:
the high score is still 0, not 120. -/
theorem highScore_lost_on_abandon :
    pausedState.isPaused = true ∧ pausedState.score = 120 ∧ pausedState.highScore = 0 ∧
      (confirmMainMenu pausedState true).highScore = 0 ∧
      (restartFromPause pausedState true).highScore = 0 ∧
      max pausedState.highScore pausedState.score = 120 := by
  decide!

/-- C9: `resetGame` is idempotent, and the state it leaves has score 0, 3 lives, level 1, no
bullets, no asteroids, `gameOver = false`, the player at `(0, -0.8)`, `asteroidSpawnRate = 0.02`
and `maxAsteroidsOnScreen = 5`. -/
theorem resetGame_idempotent (s : Game) :
    resetGame (resetGame s) = resetGame s ∧
      (resetGame s).score = 0 ∧ (resetGame s).lives = 3 ∧ (resetGame s).level = 1 ∧
      (resetGame s).bullets = [] ∧ (resetGame s).asteroids = [] ∧
      (resetGame s).gameOver = false ∧
      (resetGame s).player.x = 0 ∧ (resetGame s).player.y = -0.8 ∧
      (resetGame s).asteroidSpawnRate = some 0.02 ∧
      (resetGame s).maxAsteroidsOnScreen = some 5 := by
  simp [resetGame]

/-- C10: `checkLevelProgression` with `target = floor(score / levelScoreThreshold) + 1`. When
`target > level` it sets `level` to `min(target, 50)`, `maxAsteroidsOnScreen` to
`min(5 + floor(level / 3), 12)` and `asteroidSpawnRate` to `min(0.02 + level * 0.002, 0.08)`
for the new level; when `target <= level` it changes nothing. In a session, a frame that ends
with `score = levelScoreThreshold * k` ends at level `min(k + 1, 50)`. -/
theorem checkLevelProgression_spec (g : Game) :
    (⌊(g.score : ℚ) / (g.levelScoreThreshold : ℚ)⌋ + 1 > g.level →
      (checkLevelProgression g).level =
        min (⌊(g.score : ℚ) / (g.levelScoreThreshold : ℚ)⌋ + 1) 50 ∧
      (checkLevelProgression g).maxAsteroidsOnScreen =
        some (min (5 + ⌊((checkLevelProgression g).level : ℚ) / 3⌋) 12) ∧
      (checkLevelProgression g).asteroidSpawnRate =
        some (min (0.02 + ((checkLevelProgression g).level : ℚ) * 0.002) 0.08)) ∧
      (⌊(g.score : ℚ) / (g.levelScoreThreshold : ℚ)⌋ + 1 ≤ g.level →
        checkLevelProgression g = g) ∧
      (Session g → ∀ (keys : Keys) (i : FrameInput) (k : Int), i.valid →
        (update { g with keys := keys } i).score =
          (update { g with keys := keys } i).levelScoreThreshold * k →
        (update { g with keys := keys } i).level = min (k + 1) 50) := by
  refine ⟨?_, ?_, ?_⟩
  · intro h
    simp [checkLevelProgression, h]
  · intro h
    simp [checkLevelProgression, not_lt.mpr h]
  · intro hs keys i k hi hk
    have hu := (update_inv _ i hi (keys_inv g keys (Session.inv g hs))).1
    rw [hu.1.2.2.1] at hk
    rw [hu.2.2.1, hk]
    have : ⌊(((500 * k : Int)) : ℚ) / 500⌋ = k := by
      push_cast
      rw [mul_div_cancel_left₀ _ (by norm_num : (500 : ℚ) ≠ 0)]
      exact Int.floor_intCast k
    rw [this]

/-- With score 500 at level 1 the level becomes 2, and the first frame of a session, which
ends with score 0, ends at level 1. -/
theorem checkLevelProgression_spec_witness :
    (checkLevelProgression { levelTwoState with level := 1 }).level =
        min (⌊(({ levelTwoState with level := 1 } : Game).score : ℚ) /
          (({ levelTwoState with level := 1 } : Game).levelScoreThreshold : ℚ)⌋ + 1) 50 ∧
      firstFrame.level = min (0 + 1) 50 :=
  ⟨((checkLevelProgression_spec { levelTwoState with level := 1 }).1 (by decide!)).1,
    (checkLevelProgression_spec (resetGame (game 0))).2.2 (Session.reset _ (settings_game 0))
      { left := false, right := false, space := true } spawnFrame 0 valid_spawnFrame
      (by decide!)⟩

/-- C11: with the clock reading `now` as an input, `fireBullet` appends exactly one bullet, at
`x = player.x`, `y = player.y + player.height / 2` with velocity `(0, 0.02)`, and sets
`lastShot` to `now` when the game is not over and `now - lastShot >= shootDelay`, and changes
nothing otherwise. A frame fires exactly when the fire key is held and that condition holds, so
over any run of frames any two shots are at least `shootDelay` apart, which is 250 ms in a
session. -/
theorem fireBullet_spec (g : Game) (now : Int) :
    (g.gameOver = false ∧ now - g.lastShot ≥ g.shootDelay →
      fireBullet g now =
        { g with
          bullets := g.bullets ++
            [({ x := g.player.x, y := g.player.y + g.player.height / 2, speedX := 0,
                speedY := 0.02, width := 0.02, height := 0.04 } : Bullet)]
          lastShot := now }) ∧
      (¬ (g.gameOver = false ∧ now - g.lastShot ≥ g.shootDelay) → fireBullet g now = g) ∧
      (∀ i : FrameInput, firesIn g i = true ↔
        g.keys.space = true ∧ g.gameOver = false ∧ i.now - g.lastShot ≥ g.shootDelay) ∧
      (∀ frames : List (Keys × FrameInput), 0 ≤ g.shootDelay →
        (shotTimes g frames).Pairwise fun a b => b - a ≥ g.shootDelay) ∧
      (Session g → ∀ frames : List (Keys × FrameInput),
        (shotTimes g frames).Pairwise fun a b => b - a ≥ 250) := by
  have hpw : ∀ frames : List (Keys × FrameInput), 0 ≤ g.shootDelay →
      (shotTimes g frames).Pairwise fun a b => b - a ≥ g.shootDelay := by
    intro frames hd
    refine (shotTimes_pairwise frames g hd).imp ?_
    intro a b hab
    omega
  refine ⟨(fireBullet_cases g now).1, (fireBullet_cases g now).2, firesIn_iff g, hpw, ?_⟩
  intro hs frames
  have hd : g.shootDelay = 250 := (Session.inv g hs).1.1
  have := hpw frames (by omega)
  rw [hd] at this
  exact this

/-- A fresh session at 1000 ms: `fireBullet` fires; and with the fire key held over frames at
1000, 1100, 1200 and 1300 ms the shots are 250 ms apart at least. -/
theorem fireBullet_spec_witness :
    fireBullet (resetGame (game 0)) 1000 =
        { resetGame (game 0) with
          bullets := (resetGame (game 0)).bullets ++
            [({ x := (resetGame (game 0)).player.x,
                y := (resetGame (game 0)).player.y + (resetGame (game 0)).player.height / 2,
                speedX := 0, speedY := 0.02, width := 0.02, height := 0.04 } : Bullet)]
          lastShot := 1000 } ∧
      (shotTimes (resetGame (game 0)) fireRun).Pairwise (fun a b => b - a ≥ 250) ∧
      shotTimes (resetGame (game 0)) fireRun = [1000, 1300] :=
  ⟨(fireBullet_spec (resetGame (game 0)) 1000).1 (by decide),
    (fireBullet_spec (resetGame (game 0)) 1000).2.2.2.2 (Session.reset _ (settings_game 0))
      fireRun,
    by decide!⟩

/-- C12 (amended): in the program's arithmetic, where every operation is rounded by a monotone
and idempotent `fl` (binary64 rounding is one), for every state whose `player.x` is a value of
that arithmetic in `[-0.9, 0.9]`, with a non-negative speed, and for every combination of the
left/right flags, `updatePlayer` leaves `player.x` within one step of the bounds, between the
rounded `-0.9 - speed` and the rounded `0.9 + speed`, moves it by at most one rounded step of
`speed` and only in a held direction, and leaves `player.y` unchanged. -/
theorem updatePlayerFl_within_step (fl : ℚ → ℚ) (hmono : ∀ a b : ℚ, a ≤ b → fl a ≤ fl b)
    (hidem : ∀ q : ℚ, fl (fl q) = fl q) (g : Game) (now : Int)
    (hx : fl g.player.x = g.player.x) (hs : 0 ≤ g.player.speed)
    (hlo : -(fl 0.9) ≤ g.player.x) (hhi : g.player.x ≤ fl 0.9) :
    (fl (-(fl 0.9) - g.player.speed) ≤ (updatePlayerFl fl g now).player.x ∧
        (updatePlayerFl fl g now).player.x ≤ fl (fl 0.9 + g.player.speed)) ∧
      (fl (g.player.x - g.player.speed) ≤ (updatePlayerFl fl g now).player.x ∧
        (updatePlayerFl fl g now).player.x ≤ fl (g.player.x + g.player.speed)) ∧
      (g.keys.left = false → g.player.x ≤ (updatePlayerFl fl g now).player.x) ∧
      (g.keys.right = false → (updatePlayerFl fl g now).player.x ≤ g.player.x) ∧
      (updatePlayerFl fl g now).player.y = g.player.y := by
  rw [updatePlayerFl_player]
  simp only []
  -- the position after the left move
  have h1 : ∀ x1 : ℚ,
      x1 = (if g.keys.left = true ∧ g.player.x > -(fl 0.9) then fl (g.player.x - g.player.speed)
        else g.player.x) →
      fl x1 = x1 ∧ fl (-(fl 0.9) - g.player.speed) ≤ x1 ∧ fl (g.player.x - g.player.speed) ≤ x1 ∧
        x1 ≤ g.player.x ∧ (g.keys.left = false → x1 = g.player.x) := by
    intro x1 hx1
    by_cases hl : g.keys.left = true ∧ g.player.x > -(fl 0.9)
    · rw [if_pos hl] at hx1
      rw [hx1]
      refine ⟨hidem _, hmono _ _ (by linarith [hl.2]), le_refl _, ?_, ?_⟩
      · have := hmono (g.player.x - g.player.speed) g.player.x (by linarith)
        rwa [hx] at this
      · intro h
        rw [hl.1] at h
        exact absurd h (by decide)
    · rw [if_neg hl] at hx1
      rw [hx1]
      refine ⟨hx, ?_, ?_, le_refl _, fun _ => rfl⟩
      · have := hmono (-(fl 0.9) - g.player.speed) g.player.x (by linarith)
        rwa [hx] at this
      · have := hmono (g.player.x - g.player.speed) g.player.x (by linarith)
        rwa [hx] at this
  generalize hg : (if g.keys.left = true ∧ g.player.x > -(fl 0.9) then
    fl (g.player.x - g.player.speed) else g.player.x) = x1
  obtain ⟨f1, l1, m1, u1, k1⟩ := h1 x1 hg.symm
  have hup : x1 ≤ fl (x1 + g.player.speed) := by
    have := hmono x1 (x1 + g.player.speed) (by linarith)
    rwa [f1] at this
  by_cases hr : g.keys.right = true ∧ x1 < fl 0.9
  · rw [if_pos hr]
    refine ⟨⟨le_trans l1 hup, hmono _ _ (by linarith [hr.2])⟩,
      ⟨le_trans m1 hup, hmono _ _ (by linarith)⟩, ?_, ?_, trivial⟩
    · intro h
      rw [← k1 h]
      exact hup
    · intro h
      rw [hr.1] at h
      exact absurd h (by decide)
  · rw [if_neg hr]
    have hx0 : g.player.x ≤ fl (g.player.x + g.player.speed) := by
      have := hmono g.player.x (g.player.x + g.player.speed) (by linarith)
      rwa [hx] at this
    have hc : g.player.x ≤ fl (fl 0.9 + g.player.speed) := by
      have := hmono g.player.x (fl 0.9 + g.player.speed) (by linarith)
      rwa [hx] at this
    refine ⟨⟨l1, le_trans u1 hc⟩, ⟨m1, le_trans u1 hx0⟩, ?_, fun _ => u1, trivial⟩
    intro h
    rw [k1 h]

/-- After 44 steps to the left in double precision the player is inside `[-0.9, 0.9]`; the
next step stays within `-0.92`, the double nearest to `-0.9 - 0.02`. -/
theorem updatePlayerFl_within_step_witness :
    binary64 (-(binary64 0.9) - (leftSteps 44).player.speed) ≤
        (updatePlayerFl binary64 (leftSteps 44) 0).player.x ∧
      binary64 (-(binary64 0.9) - (leftSteps 44).player.speed) = binary64 (-0.92) ∧
      (updatePlayerFl binary64 (leftSteps 44) 0).player.y = (leftSteps 44).player.y :=
  ⟨(updatePlayerFl_within_step binary64 (fun _ _ h => binary64_mono h) binary64_idem
      (leftSteps 44) 0 (by decide!) (by decide!) (by decide!) (by decide!)).1.1,
    by decide!,
    (updatePlayerFl_within_step binary64 (fun _ _ h => binary64_mono h) binary64_idem
      (leftSteps 44) 0 (by decide!) (by decide!) (by decide!) (by decide!)).2.2.2.2⟩

/-- In double precision, 44 steps of 0.02 to the left from `x = 0` leave the player inside
`[-0.9, 0.9]`, at `x = -0.8800000000000004`, and with the left key held `updatePlayer` then
moves it to `x = -0.9000000000000005`, below `-0.9`. -/
theorem updatePlayerFl_leaves_range :
    (leftSteps 44).keys.left = true ∧
      (-(binary64 0.9) ≤ (leftSteps 44).player.x ∧ (leftSteps 44).player.x ≤ binary64 0.9) ∧
      (updatePlayerFl binary64 (leftSteps 44) 0).player.x =
        -(8106479329266897 / 9007199254740992) ∧
      (updatePlayerFl binary64 (leftSteps 44) 0).player.x < -(binary64 0.9) := by
  decide!

/-- C13: every asteroid of a session state, and so every asteroid in the collection after any
`update()` frame of a session, has `1 <= hitPoints <= initialHitPoints <= 5`. The constructor
gives `hitPoints` in `1..5` for every draw in `[0, 1)` and `initialHitPoints` equal to it;
`hit()` lowers `hitPoints` by exactly 1 and keeps `initialHitPoints`; and the asteroid a bullet
brings to 0 hit points is removed from the collection by that bullet's callback. -/
theorem asteroid_hitPoints_bounds :
    (∀ g : Game, Session g →
      (∀ a ∈ g.asteroids, 1 ≤ a.hitPoints ∧ a.hitPoints ≤ a.initialHitPoints ∧
        a.initialHitPoints ≤ 5) ∧
      ∀ (keys : Keys) (i : FrameInput), i.valid →
        ∀ a ∈ (update { g with keys := keys } i).asteroids,
          1 ≤ a.hitPoints ∧ a.hitPoints ≤ a.initialHitPoints ∧ a.initialHitPoints ≤ 5) ∧
      (∀ (level : Int) (x y rnd : ℚ), 0 ≤ rnd → rnd < 1 →
        1 ≤ (Asteroid.new level x y rnd).hitPoints ∧ (Asteroid.new level x y rnd).hitPoints ≤ 5 ∧
        (Asteroid.new level x y rnd).initialHitPoints = (Asteroid.new level x y rnd).hitPoints) ∧
      (∀ a : Asteroid, a.hit.1.hitPoints = a.hitPoints - 1 ∧
        a.hit.1.initialHitPoints = a.initialHitPoints ∧
        (a.hit.2 = true ↔ a.hitPoints - 1 ≤ 0)) ∧
      (∀ (g : Game) (b : Bullet) (l1 l2 : List Asteroid) (a : Asteroid),
        g.asteroids = l1 ++ a :: l2 → (∀ x ∈ l1, checkCollision b.rect x.rect = false) →
        checkCollision b.rect a.rect = true → a.hitPoints - 1 ≤ 0 →
          (bulletCallback g b).2.asteroids = l1 ++ l2) := by
  refine ⟨?_, ?_, ?_, ?_⟩
  · intro g hs
    have hinv := Session.inv g hs
    refine ⟨hinv.2.2.2.2, ?_⟩
    intro keys i hi
    exact (update_inv _ i hi (keys_inv g keys hinv)).1.2.2.2.2
  · intro level x y rnd h0 h1
    have h := new_wf level x y rnd h0 h1
    exact ⟨h.1, le_trans h.2.1 h.2.2, rfl⟩
  · intro a
    simp [Asteroid.hit]
  · intro g b l1 l2 a hs h1 ha hd
    have hcb := bulletCallback_first g b l1 l2 a hs h1 ha
    have hd2 : a.hit.2 = true := by simp [Asteroid.hit, hd]
    rw [if_pos hd2] at hcb
    rw [hcb]

/-- The asteroid spawned in the first frame of a session has between 1 and 5 hit points, and
a draw of 0.5 gives 3 hit points. -/
theorem asteroid_hitPoints_bounds_witness :
    firstFrame.asteroids.length = 1 ∧
      (∀ a ∈ firstFrame.asteroids, 1 ≤ a.hitPoints ∧ a.hitPoints ≤ a.initialHitPoints ∧
        a.initialHitPoints ≤ 5) ∧
      (1 ≤ (Asteroid.new 1 0 1.1 0.5).hitPoints ∧ (Asteroid.new 1 0 1.1 0.5).hitPoints ≤ 5 ∧
        (Asteroid.new 1 0 1.1 0.5).initialHitPoints = (Asteroid.new 1 0 1.1 0.5).hitPoints) ∧
      (Asteroid.new 1 0 1.1 0.5).hitPoints = 3 :=
  ⟨by decide!, (asteroid_hitPoints_bounds.1 firstFrame session_firstFrame).1,
    asteroid_hitPoints_bounds.2.1 1 0 1.1 0.5 (by norm_num) (by norm_num), by decide!⟩

/-- C14: an asteroid created at level `L` has
`speed = min(0.004 * (1 + min(L, 20) * 0.1), 0.006)` in exact rationals, which is
non-decreasing in `L` and at most 0.006. `Asteroid.update` keeps `speed`, lowers `y` by exactly
`speed` and returns true exactly when the new `y` is above -1. -/
theorem asteroid_speed_spec :
    (∀ (L : Int) (x y rnd : ℚ),
      (Asteroid.new L x y rnd).speed = min (0.004 * (1 + ((min L 20 : Int) : ℚ) * 0.1)) 0.006 ∧
      (Asteroid.new L x y rnd).speed ≤ 0.006) ∧
      (∀ (L L' : Int) (x y rnd x' y' rnd' : ℚ), L ≤ L' →
        (Asteroid.new L x y rnd).speed ≤ (Asteroid.new L' x' y' rnd').speed) ∧
      (∀ a : Asteroid, a.update.1.speed = a.speed ∧ a.update.1.y = a.y - a.speed ∧
        (a.update.2 = true ↔ a.update.1.y > -1)) := by
  refine ⟨?_, ?_, ?_⟩
  · intro L x y rnd
    exact ⟨rfl, min_le_right _ _⟩
  · intro L L' x y rnd x' y' rnd' h
    simp only [Asteroid.new]
    apply min_le_min _ (le_refl _)
    have hm : ((min L 20 : Int) : ℚ) ≤ ((min L' 20 : Int) : ℚ) := by
      exact_mod_cast min_le_min h (le_refl 20)
    linarith
  · intro a
    simp [Asteroid.update]

/-- Speeds at levels 1 and 5: 0.0044 and the cap 0.006. -/
theorem asteroid_speed_spec_witness :
    (Asteroid.new 1 0 1.1 0.5).speed ≤ (Asteroid.new 5 0 1.1 0.5).speed ∧
      (Asteroid.new 1 0 1.1 0.5).speed = 0.0044 ∧ (Asteroid.new 5 0 1.1 0.5).speed = 0.006 :=
  ⟨asteroid_speed_spec.2.1 1 5 0 1.1 0.5 0 1.1 0.5 (by decide), by decide!, by decide!⟩

/-- C15: on the game screen and not paused, `togglePauseMenu` pauses: `isPaused = true` and
`currentScreen = 'pause'`. On that paused state `togglePauseMenu` changes nothing, so two
calls leave the game paused, and neither a `gameLoop` iteration nor `confirmMainMenu` brings it
back to the game screen; `resumeGame` does, and restores the state as it was, and the restart
handler reaches the game screen through `resumeGame`. -/
theorem togglePauseMenu_one_way (g : Game) (i : FrameInput) (confirmed : Bool)
    (hs : g.currentScreen = Screen.game) (hp : g.isPaused = false) :
    ((togglePauseMenu g).isPaused = true ∧ (togglePauseMenu g).currentScreen = Screen.pause) ∧
      togglePauseMenu (togglePauseMenu g) = togglePauseMenu g ∧
      gameLoop (togglePauseMenu g) i = togglePauseMenu g ∧
      (confirmMainMenu (togglePauseMenu g) confirmed).currentScreen ≠ Screen.game ∧
      restartFromPause (togglePauseMenu g) true = resetGame (resumeGame (togglePauseMenu g)) ∧
      restartFromPause (togglePauseMenu g) false = togglePauseMenu g ∧
      ((resumeGame (togglePauseMenu g)).currentScreen = Screen.game ∧
        (resumeGame (togglePauseMenu g)).isPaused = false) ∧
      resumeGame (togglePauseMenu g) = g := by
  have ht : togglePauseMenu g = pauseGame g := by simp [togglePauseMenu, hs, hp]
  rw [ht]
  refine ⟨⟨rfl, rfl⟩, ?_, ?_, ?_, rfl, rfl, ⟨rfl, rfl⟩, ?_⟩
  · simp [togglePauseMenu, pauseGame]
  · simp [gameLoop, pauseGame]
  · cases confirmed <;> simp [confirmMainMenu, showStartScreen, resumeGame, pauseGame]
  · cases g
    simp only [pauseGame, resumeGame] at *
    simp [hs, hp]

/-- A session just started: Escape pauses it, a second Escape leaves it paused, and
`resumeGame` brings it back. -/
theorem togglePauseMenu_one_way_witness :
    (togglePauseMenu (togglePauseMenu playingState)).isPaused = true ∧
      (togglePauseMenu (togglePauseMenu playingState)).currentScreen = Screen.pause ∧
      resumeGame (togglePauseMenu playingState) = playingState := by
  have h := togglePauseMenu_one_way playingState quietFrame true rfl rfl
  refine ⟨?_, ?_, h.2.2.2.2.2.2.2⟩
  · rw [h.2.1]; exact h.1.1
  · rw [h.2.1]; exact h.1.2

end SpaceShooter
